import Mathlib

/-! # TOTP engine of `misc_go_server` (`totp/totp.go`)

A shallow embedding of the one-time-password program: the dynamic truncation
`truncateSHA1`, the digit reduction of `TOTP.OTP`, the credential text
`TOTP.URL`, and the constructors `CreateTOTP` and `TOTPFromURL`, together with
models of the Go library calls they make.

Conventions of the embedding.

* A Go `[]byte` and a Go `string` are both a `List Byte` with `Byte = Fin 256`
  (a Go string is a byte sequence); `ascii` turns an ASCII literal into bytes.
* A Go call that can panic returns `Go α = Except Panic α`: `Except.error` is
  the panic, `Except.ok` the normal return.
* `int32` and `uint32` values are `Int` and `Nat` with explicit wrapping
  (`wrapInt32`, `% 2 ^ 32`); `int` is 64 bits wide.
* What the program reads from its surroundings is an explicit argument: the
  clock (`Platform.now`) and the bytes delivered by `crypto/rand`.
* The flags `debug` and `print_timing` are at their default `false`, so the
  diagnostic prints are absent.
-/

/-- One octet. -/
abbrev Byte := Fin 256

/-- A Go string: a sequence of bytes. -/
abbrev GoString := List Byte

/-- The byte of an ASCII character. -/
def ch (c : Char) : Byte := Fin.ofNat c.toNat

/-- The bytes of an ASCII literal. -/
def ascii (s : String) : GoString := s.toList.map ch

/-- The ways a Go call can abort. -/
inductive Panic where
  /-- Raised by `panic(msg)` with a text the program built. -/
  | message (text : String)
  /-- Raised by `panicOnErr(err)`: the error value a library call returned. -/
  | libError (origin : String)
  /-- Raised by the Go runtime. -/
  | runtime (what : String)
deriving DecidableEq, Repr

/-- Outcome of a Go call that may panic. -/
abbrev Go (α : Type) := Except Panic α

deriving instance DecidableEq for Except

/-- The helper `panicIf` of `totp.go`. -/
def panicIf (cond : Bool) (msg : String) : Go Unit :=
  if cond then .error (.message msg) else .ok ()

/-- The helper `panicOnErr` of `totp.go`; `none` is Go's `nil` error. -/
def panicOnErr (err : Option String) : Go Unit :=
  match err with
  | some e => .error (.libError e)
  | none => .ok ()

/-! ## Machine integers -/

/-- Conversion `int32(x)` of an unsigned 32-bit value: two's complement wrap. -/
def wrapInt32 (n : Nat) : Int :=
  if n % 2 ^ 32 < 2 ^ 31 then ((n % 2 ^ 32 : Nat) : Int) else ((n % 2 ^ 32 : Nat) : Int) - 2 ^ 32

/-- Go's `a % b` on signed integers: panics on a zero divisor, otherwise the
remainder of the division truncated toward zero. -/
def goRem (a b : Int) : Go Int :=
  if b = 0 then .error (.runtime "integer divide by zero") else .ok (Int.tmod a b)

/-- What the program takes from the machine it runs on. -/
structure Platform where
  /-- The reading `time.Now().Unix()`. -/
  now : Int
  /-- The value of `int32(f)` for a float `f = math.Pow10(n)`, `n ≥ 10`, that no
  `int32` represents; Go leaves it to the implementation. -/
  int32OfHuge : Int → Int

/-- The expression `int32(math.Pow10(n))`. For `0 ≤ n ≤ 9` the table entry is the
exact power and fits; for `n < 0` the float lies in `[0, 1)` and truncates to
`0`; for `n ≥ 10` the conversion is implementation-dependent. -/
def pow10Int32 (p : Platform) (n : Int) : Int :=
  if n < 0 then 0
  else if n ≤ 9 then 10 ^ n.toNat
  else p.int32OfHuge n

/-! ## Decimal rendering (`%v` of an integer) -/

/-- The character of a decimal digit value. -/
def digitByte (d : Nat) : Byte := Fin.ofNat (48 + d % 10)

/-- Decimal digits of a natural number, most significant first, pushed in front
of `acc`; `fuel` bounds the number of digits produced. -/
def natDigitsAux : Nat → Nat → GoString → GoString
  | 0, _, acc => acc
  | fuel + 1, n, acc =>
    if n < 10 then digitByte n :: acc
    else natDigitsAux fuel (n / 10) (digitByte (n % 10) :: acc)

/-- Decimal text of a natural number. -/
def formatNat (n : Nat) : GoString := natDigitsAux (n + 1) n []

/-- Decimal text of an integer, with a leading `-` when negative. -/
def formatInt (i : Int) : GoString :=
  if i < 0 then ch '-' :: formatNat i.natAbs else formatNat i.natAbs

/-! ## Slices -/

/-- Index expression `s[i]`: panics when `i` is out of range. -/
def byteAt (s : List Byte) (i : Nat) : Go Byte :=
  match s.get? i with
  | some b => .ok b
  | none => .error (.runtime "index out of range")

/-- Slice expression `s[lo:hi]`: panics unless `lo ≤ hi ≤ len(s)`. -/
def subslice (s : List Byte) (lo hi : Nat) : Go (List Byte) :=
  if lo ≤ hi ∧ hi ≤ s.length then .ok ((s.drop lo).take (hi - lo))
  else .error (.runtime "slice bounds out of range")

/-- The library call `binary.BigEndian.Uint32(b)`: reads `b[3]` first (the bounds
check), then `uint32(b[3]) | uint32(b[2])<<8 | uint32(b[1])<<16 | uint32(b[0])<<24`. -/
def bigEndianUint32 (b : List Byte) : Go Nat := do
  let b3 ← byteAt b 3
  let b2 ← byteAt b 2
  let b1 ← byteAt b 1
  let b0 ← byteAt b 0
  return b3.val ||| (b2.val <<< 8) % 2 ^ 32 ||| (b1.val <<< 16) % 2 ^ 32
    ||| (b0.val <<< 24) % 2 ^ 32

/-- The library call `binary.BigEndian.PutUint64(ret, v)` on a fresh 8-byte
slice: the bytes of `v`, most significant first. -/
def putUint64BE (v : Nat) : List Byte :=
  [Fin.ofNat (v >>> 56), Fin.ofNat (v >>> 48), Fin.ofNat (v >>> 40), Fin.ofNat (v >>> 32),
   Fin.ofNat (v >>> 24), Fin.ofNat (v >>> 16), Fin.ofNat (v >>> 8), Fin.ofNat v]

/-! ## Dynamic truncation -/

/-- The function `truncateSHA1` of `totp.go`. -/
def truncateSHA1 (inp : List Byte) : Go Int := do
  if inp.length ≠ 20 then
    throw (.message ("truncate.inp's length should be 20, but is "
      ++ String.mk ((formatNat inp.length).map fun b => Char.ofNat b.val)))
  let last ← byteAt inp 19
  let offset := last.val &&& 0xF
  let window ← subslice inp offset (offset + 4)
  let p ← bigEndianUint32 window
  let p := p &&& 0x7FFFFFFF
  return wrapInt32 p

/-! ## SHA-1 and HMAC (`crypto/sha1`, `crypto/hmac`)

The program obtains its MAC from the Go standard library. The functions below
follow FIPS 180-4 (SHA-1) and RFC 2104 (HMAC), which that library implements. -/

/-- Rotation of a 32-bit word to the left by `n` bits. -/
def rotl32 (x n : Nat) : Nat := ((x <<< n) ||| (x >>> (32 - n))) % 2 ^ 32

/-- Addition of 32-bit words. -/
def add32 (x y : Nat) : Nat := (x + y) % 2 ^ 32

/-- SHA-1 padding: a `0x80` byte, zero bytes up to 56 modulo 64, then the bit
length of the message as 8 big-endian bytes. -/
def sha1Pad (msg : List Byte) : List Byte :=
  msg ++ [(0x80 : Byte)] ++ List.replicate ((119 - msg.length % 64) % 64) (0 : Byte)
    ++ putUint64BE (8 * msg.length % 2 ^ 64)

/-- Big-endian 32-bit words of a block. -/
def wordsOf : List Byte → List Nat
  | b0 :: b1 :: b2 :: b3 :: rest =>
    (b0.val <<< 24 ||| b1.val <<< 16 ||| b2.val <<< 8 ||| b3.val) :: wordsOf rest
  | _ => []

/-- Message schedule, most recent word first: `n` more words, each
`rotl1 (w[t-3] ^ w[t-8] ^ w[t-14] ^ w[t-16])`. -/
def extendSchedule : Nat → List Nat → List Nat
  | 0, ws => ws
  | n + 1, ws =>
    extendSchedule n
      (rotl32 (ws.getD 2 0 ^^^ ws.getD 7 0 ^^^ ws.getD 13 0 ^^^ ws.getD 15 0) 1 :: ws)

/-- The five working words of SHA-1. -/
structure Sha1State where
  a : Nat
  b : Nat
  c : Nat
  d : Nat
  e : Nat
deriving DecidableEq

/-- Round function of round `t`. -/
def sha1F (t b c d : Nat) : Nat :=
  if t < 20 then (b &&& c) ||| ((b ^^^ 0xFFFFFFFF) &&& d)
  else if t < 40 then b ^^^ c ^^^ d
  else if t < 60 then (b &&& c) ||| (b &&& d) ||| (c &&& d)
  else b ^^^ c ^^^ d

/-- Round constant of round `t`. -/
def sha1K (t : Nat) : Nat :=
  if t < 20 then 0x5A827999 else if t < 40 then 0x6ED9EBA1
  else if t < 60 then 0x8F1BBCDC else 0xCA62C1D6

/-- One round. -/
def sha1Round (s : Sha1State) (t w : Nat) : Sha1State :=
  ⟨add32 (add32 (add32 (add32 (rotl32 s.a 5) (sha1F t s.b s.c s.d)) s.e) (sha1K t)) w,
   s.a, rotl32 s.b 30, s.c, s.d⟩

/-- The rounds over the schedule `ws`, numbered from `t`. -/
def sha1Rounds : Sha1State → Nat → List Nat → Sha1State
  | s, _, [] => s
  | s, t, w :: ws => sha1Rounds (sha1Round s t w) (t + 1) ws

/-- Compression of one 64-byte block into the chaining value `h`. -/
def sha1Block (h : Sha1State) (block : List Byte) : Sha1State :=
  let s := sha1Rounds h 0 (extendSchedule 64 (wordsOf block).reverse).reverse
  ⟨add32 h.a s.a, add32 h.b s.b, add32 h.c s.c, add32 h.d s.d, add32 h.e s.e⟩

/-- Compression of `n` consecutive blocks. -/
def sha1Blocks : Nat → Sha1State → List Byte → Sha1State
  | 0, h, _ => h
  | n + 1, h, bs => sha1Blocks n (sha1Block h (bs.take 64)) (bs.drop 64)

/-- The four bytes of a 32-bit word, most significant first. -/
def wordBytes (w : Nat) : List Byte :=
  [Fin.ofNat (w >>> 24), Fin.ofNat (w >>> 16), Fin.ofNat (w >>> 8), Fin.ofNat w]

/-- The digest `sha1.Sum(msg)`: 20 bytes. -/
def sha1 (msg : List Byte) : List Byte :=
  let h := sha1Blocks ((sha1Pad msg).length / 64)
    ⟨0x67452301, 0xEFCDAB89, 0x98BADCFE, 0x10325476, 0xC3D2E1F0⟩ (sha1Pad msg)
  wordBytes h.a ++ wordBytes h.b ++ wordBytes h.c ++ wordBytes h.d ++ wordBytes h.e

/-- The MAC written by `hmac.New(sha1.New, key)`, `Write(msg)`, `Sum(nil)`. -/
def hmacSHA1 (key msg : List Byte) : List Byte :=
  let k := if key.length > 64 then sha1 key else key
  let k := k ++ List.replicate (64 - k.length) (0 : Byte)
  let ipad := k.map fun b => (Fin.ofNat (b.val ^^^ 0x36) : Byte)
  let opad := k.map fun b => (Fin.ofNat (b.val ^^^ 0x5c) : Byte)
  sha1 (opad ++ sha1 (ipad ++ msg))

/-! ## Base32 (`encoding/base32`, `StdEncoding`) -/

/-- The RFC 4648 alphabet. -/
def base32Alphabet : GoString := ascii "ABCDEFGHIJKLMNOPQRSTUVWXYZ234567"

/-- The symbol of a 5-bit value (`enc.encode[b & 31]`). -/
def base32Symbol (v : Nat) : Byte := base32Alphabet.getD (v % 32) 0

/-- The eight symbols of a quantum of five bytes. -/
def base32Quantum (b0 b1 b2 b3 b4 : Byte) : GoString :=
  [base32Symbol (b0.val >>> 3),
   base32Symbol ((b0.val <<< 2) % 32 ||| b1.val >>> 6),
   base32Symbol (b1.val >>> 1),
   base32Symbol ((b1.val <<< 4) % 32 ||| b2.val >>> 4),
   base32Symbol ((b2.val <<< 1) % 32 ||| b3.val >>> 7),
   base32Symbol (b3.val >>> 2),
   base32Symbol ((b3.val <<< 3) % 32 ||| b4.val >>> 5),
   base32Symbol b4.val]

/-- The text `base32.StdEncoding.EncodeToString(src)`: eight symbols for every
five bytes, the last quantum filled with `=`. -/
def base32Encode : List Byte → GoString
  | b0 :: b1 :: b2 :: b3 :: b4 :: rest => base32Quantum b0 b1 b2 b3 b4 ++ base32Encode rest
  | [b0, b1, b2, b3] => (base32Quantum b0 b1 b2 b3 0).take 7 ++ ascii "="
  | [b0, b1, b2] => (base32Quantum b0 b1 b2 0 0).take 5 ++ ascii "==="
  | [b0, b1] => (base32Quantum b0 b1 0 0 0).take 4 ++ ascii "===="
  | [b0] => (base32Quantum b0 0 0 0 0).take 2 ++ ascii "======"
  | [] => []

/-- The 5-bit value of a symbol (`enc.decodeMap`), `none` outside the alphabet. -/
def base32Value (c : Byte) : Option Nat :=
  let i := base32Alphabet.indexOf c
  if i < 32 then some i else none

/-- One quantum of the decoder: up to `k` further symbols are read, `acc` holds
the values read so far, last first. Returns the values, the unread input and
whether padding ended the input; `none` is `CorruptInputError`. -/
def base32ReadQuantum : Nat → GoString → List Nat → Option (List Nat × GoString × Bool)
  | 0, src, acc => some (acc.reverse, src, false)
  | _ + 1, [], _ => none
  | k + 1, c :: src, acc =>
    if c = ch '=' ∧ 2 ≤ acc.length ∧ src.length < 8 then
      if src.length + acc.length < 7 then none
      else if (src.take (7 - acc.length)).any (fun b => b ≠ ch '=') then none
      else if acc.length = 3 ∨ acc.length = 6 then none
      else some (acc.reverse, src, true)
    else
      match base32Value c with
      | none => none
      | some v => base32ReadQuantum k src (v :: acc)

/-- The bytes packed from the values of one quantum: 5, 4, 3, 2 or 1 bytes for
8, 7, 5, 4 or 2 values. -/
def base32Pack (d : List Nat) : List Byte :=
  let v (i : Nat) : Nat := d.getD i 0
  let all : List Byte :=
    [Fin.ofNat (v 0 <<< 3 ||| v 1 >>> 2),
     Fin.ofNat (v 1 <<< 6 ||| v 2 <<< 1 ||| v 3 >>> 4),
     Fin.ofNat (v 3 <<< 4 ||| v 4 >>> 1),
     Fin.ofNat (v 4 <<< 7 ||| v 5 <<< 2 ||| v 6 >>> 3),
     Fin.ofNat (v 6 <<< 5 ||| v 7)]
  all.take (if d.length = 8 then 5 else if d.length = 7 then 4 else if d.length = 5 then 3
    else if d.length = 4 then 2 else if d.length = 2 then 1 else 0)

/-- The decoder loop: quantum after quantum until the input or the padding ends. -/
def base32DecodeLoop : Nat → GoString → Option (List Byte)
  | 0, _ => some []
  | fuel + 1, src =>
    if src = [] then some []
    else
      match base32ReadQuantum 8 src [] with
      | none => none
      | some (d, rest, ended) =>
        if ended then some (base32Pack d)
        else (base32DecodeLoop fuel rest).map (base32Pack d ++ ·)

/-- The call `base32.StdEncoding.DecodeString(s)`: line breaks are dropped, then
the quanta are decoded. -/
def base32DecodeString (s : GoString) : Except String (List Byte) :=
  let src := s.filter (fun b => b ≠ ch '\r' ∧ b ≠ ch '\n')
  match base32DecodeLoop (src.length + 1) src with
  | some b => .ok b
  | none => .error "illegal base32 data"

/-! ## The credential and its one-time password -/

/-- The struct `TOTP` of `totp.go`. -/
structure TOTP where
  issuer : GoString
  digits : Int
  secret : GoString
  note : GoString
deriving DecidableEq

/-- The method `secretBytes`: the decoded secret, a panic when it is not base32. -/
def TOTP.secretBytes (totp : TOTP) : Go (List Byte) :=
  match base32DecodeString totp.secret with
  | .ok b => .ok b
  | .error e => .error (.libError e)

/-- The method `timeSeqBytes`: `uint64(time.Now().Unix() / 30)` as 8 big-endian
bytes. -/
def TOTP.timeSeqBytes (p : Platform) : List Byte :=
  putUint64BE ((Int.tdiv p.now 30 % 2 ^ 64).toNat)

/-- The last line of `TOTP.OTP`: `truncateSHA1(hash) % int32(math.Pow10(digits))`. -/
def otpOfMAC (p : Platform) (hash : List Byte) (digits : Int) : Go Int := do
  let t ← truncateSHA1 hash
  goRem t (pow10Int32 p digits)

/-- The method `TOTP.OTP`. -/
def TOTP.OTP (p : Platform) (totp : TOTP) : Go Int := do
  let key ← totp.secretBytes
  let hash := hmacSHA1 key (TOTP.timeSeqBytes p)
  otpOfMAC p hash totp.digits

/-- The text `fmt.Println(v)` writes for an integer: its decimal form and a
line break. -/
def printlnInt (v : Int) : GoString := formatInt v ++ [ch '\n']

/-! ## Text helpers (`fmt`, `strconv`, `strings`) -/

/-- An operand of `fmt.Sprintf`. -/
inductive FmtArg where
  | str (s : GoString)
  | int (i : Int)

/-- The text the verb `%v` writes for an operand: a string as it is, an integer
in decimal. -/
def fmtValue : FmtArg → GoString
  | .str s => s
  | .int i => formatInt i

/-- The call `fmt.Sprintf(format, args...)` for the formats of the program,
whose only verb is `%v`: each `%v` is replaced by the next operand (or by the
marker `%!v(MISSING)`), `%%` by a percent sign, everything else is copied. -/
def sprintf : GoString → List FmtArg → GoString
  | [], _ => []
  | c :: rest, args =>
    if c = ch '%' then
      match rest with
      | v :: rest2 =>
        if v = ch 'v' then
          match args with
          | a :: args2 => fmtValue a ++ sprintf rest2 args2
          | [] => ascii "%!v(MISSING)" ++ sprintf rest2 []
        else if v = ch '%' then ch '%' :: sprintf rest2 args
        else c :: v :: sprintf rest2 args
      | [] => ascii "%!(NOVERB)"
    else c :: sprintf rest args

/-- Whether a byte is an ASCII decimal digit. -/
def isDigitByte (b : Byte) : Bool := decide (48 ≤ b.val ∧ b.val ≤ 57)

/-- Whether a byte is an ASCII letter. -/
def isLetterByte (b : Byte) : Bool :=
  decide ((97 ≤ b.val ∧ b.val ≤ 122) ∨ (65 ≤ b.val ∧ b.val ≤ 90))

/-- The digit loop of `strconv`: `n = n*10 + (c - '0')` over the text, `none` at
the first byte that is not a digit. -/
def parseDecimal : GoString → Nat → Option Nat
  | [], n => some n
  | c :: cs, n => if isDigitByte c then parseDecimal cs (n * 10 + (c.val - 48)) else none

/-- The call `strconv.Atoi(s)` for a 64-bit `int`: the value and the error.
An optional sign is followed by at least one digit, otherwise the result is `0`
with a syntax error; a value outside `int` gives the nearest bound with a range
error. -/
def strconv.Atoi (s : GoString) : Int × Option String :=
  match s with
  | [] => (0, some "strconv.Atoi: invalid syntax")
  | c :: rest =>
    let body := if c = ch '-' ∨ c = ch '+' then rest else s
    if body = [] then (0, some "strconv.Atoi: invalid syntax")
    else
      match parseDecimal body 0 with
      | none => (0, some "strconv.Atoi: invalid syntax")
      | some v =>
        if c = ch '-' then
          if v > 2 ^ 63 then (-(2 ^ 63), some "strconv.Atoi: value out of range")
          else (-(v : Int), none)
        else
          if v ≥ 2 ^ 63 then (2 ^ 63 - 1, some "strconv.Atoi: value out of range")
          else ((v : Int), none)

/-- The call `strings.TrimLeft(s, cutset)` for an ASCII cutset: the leading
bytes that occur in `cutset` are dropped. -/
def strings.TrimLeft (s cutset : GoString) : GoString := s.dropWhile (fun b => cutset.contains b)

/-- The call `strings.Cut(s, sep)` for a one-byte separator: the text before
the first `sep`, the text after it, and whether `sep` occurs. -/
def cutAt (sep : Byte) : GoString → GoString × GoString × Bool
  | [] => ([], [], false)
  | c :: cs =>
    if c = sep then ([], cs, true)
    else ((c :: (cutAt sep cs).1), (cutAt sep cs).2.1, (cutAt sep cs).2.2)

/-- The call `strings.LastIndex(s, sep)` for a one-byte separator, `none` for -1. -/
def lastIndexOf (sep : Byte) : GoString → Option Nat
  | [] => none
  | c :: cs =>
    match lastIndexOf sep cs with
    | some i => some (i + 1)
    | none => if c = sep then some 0 else none

/-- The call `strings.Index(s, pat)`, `none` for -1. -/
def indexOfSeq (pat : GoString) : GoString → Option Nat
  | [] => if pat = [] then some 0 else none
  | c :: cs =>
    if pat.isPrefixOf (c :: cs) then some 0
    else (indexOfSeq pat cs).map (· + 1)

/-- The call `strings.ToLower(s)` on ASCII text. -/
def toLowerASCII (s : GoString) : GoString :=
  s.map fun b => if 65 ≤ b.val ∧ b.val ≤ 90 then Fin.ofNat (b.val + 32) else b

/-! ## URL parsing (`net/url`)

The functions below follow `url.Parse`, `URL.Query` and `Values.Get` of the Go
standard library, for the fields the program reads. -/

/-- The fields of `url.URL` that `Parse` fills and that matter to the program. -/
structure url.URL where
  Scheme : GoString
  Opaque : GoString
  Host : GoString
  Path : GoString
  RawQuery : GoString
  Fragment : GoString
deriving DecidableEq

/-- The escaping modes of `net/url`. -/
inductive url.Mode where
  | path
  | userPassword
  | host
  | zone
  | queryComponent
  | fragment
deriving DecidableEq

/-- Whether a byte is a hexadecimal digit (`ishex`). -/
def url.ishex (c : Byte) : Bool :=
  decide ((48 ≤ c.val ∧ c.val ≤ 57) ∨ (97 ≤ c.val ∧ c.val ≤ 102) ∨ (65 ≤ c.val ∧ c.val ≤ 70))

/-- The value of a hexadecimal digit (`unhex`). -/
def url.unhex (c : Byte) : Nat :=
  if 48 ≤ c.val ∧ c.val ≤ 57 then c.val - 48
  else if 97 ≤ c.val ∧ c.val ≤ 102 then c.val - 97 + 10
  else if 65 ≤ c.val ∧ c.val ≤ 70 then c.val - 65 + 10
  else 0

/-- The test `shouldEscape(c, encodeHost)`: letters, digits, the sub-delimiters,
`:`, `[`, `]`, `<`, `>`, `"` and the marks `-`, `_`, `.`, `~` may stand in a host. -/
def url.shouldEscapeHost (c : Byte) : Bool :=
  !(isLetterByte c || isDigitByte c || (ascii "!$&'()*+,;=:[]<>\"-_.~").contains c)

/-- First pass of `unescape`: every `%` is followed by two hexadecimal digits,
and a host holds only bytes that may stand in one. -/
def url.unescapeCheck (mode : url.Mode) : GoString → Except String Unit
  | [] => .ok ()
  | c :: rest =>
    if c = ch '%' then
      match rest with
      | h1 :: h2 :: rest2 =>
        if url.ishex h1 && url.ishex h2 then
          if mode = .host ∧ url.unhex h1 < 8 ∧ [c, h1, h2] ≠ ascii "%25" then
            .error "invalid URL escape"
          else if mode = .zone ∧ [c, h1, h2] ≠ ascii "%25"
              ∧ (url.unhex h1 * 16 + url.unhex h2) ≠ 32
              ∧ url.shouldEscapeHost (Fin.ofNat (url.unhex h1 * 16 + url.unhex h2)) then
            .error "invalid URL escape"
          else url.unescapeCheck mode rest2
        else .error "invalid URL escape"
      | _ => .error "invalid URL escape"
    else if (mode = .host ∨ mode = .zone) ∧ c.val < 128 ∧ url.shouldEscapeHost c then
      .error "invalid character in host name"
    else url.unescapeCheck mode rest

/-- Second pass of `unescape`: `%XX` becomes the byte `XX`, and in a query
component `+` becomes a space. -/
def url.unescapeBuild (mode : url.Mode) : GoString → GoString
  | [] => []
  | c :: rest =>
    if c = ch '%' then
      match rest with
      | h1 :: h2 :: rest2 =>
        Fin.ofNat (url.unhex h1 * 16 + url.unhex h2) :: url.unescapeBuild mode rest2
      | _ => []
    else if c = ch '+' ∧ mode = .queryComponent then ch ' ' :: url.unescapeBuild mode rest
    else c :: url.unescapeBuild mode rest

/-- The function `unescape(s, mode)`. -/
def url.unescape (s : GoString) (mode : url.Mode) : Except String GoString :=
  match url.unescapeCheck mode s with
  | .error e => .error e
  | .ok _ => .ok (url.unescapeBuild mode s)

/-- The loop of `getScheme`: `i` bytes of `raw` have been read, `rest` is left. -/
def url.getSchemeLoop (raw : GoString) : Nat → GoString → Except String (GoString × GoString)
  | _, [] => .ok ([], raw)
  | i, c :: cs =>
    if isLetterByte c then url.getSchemeLoop raw (i + 1) cs
    else if isDigitByte c ∨ c = ch '+' ∨ c = ch '-' ∨ c = ch '.' then
      if i = 0 then .ok ([], raw) else url.getSchemeLoop raw (i + 1) cs
    else if c = ch ':' then
      if i = 0 then .error "missing protocol scheme" else .ok (raw.take i, cs)
    else .ok ([], raw)

/-- The function `getScheme(rawURL)`: the scheme and the text after its colon,
or an empty scheme and the whole text. -/
def url.getScheme (raw : GoString) : Except String (GoString × GoString) :=
  url.getSchemeLoop raw 0 raw

/-- The function `validOptionalPort`: empty, or a colon followed by digits. -/
def url.validOptionalPort (port : GoString) : Bool :=
  match port with
  | [] => true
  | c :: digits => c = ch ':' && digits.all isDigitByte

/-- The function `validUserinfo`. -/
def url.validUserinfo (s : GoString) : Bool :=
  s.all fun c => isLetterByte c || isDigitByte c || (ascii "-._:~!$&'()*+,;=%@").contains c

/-- The function `parseHost`. -/
def url.parseHost (host : GoString) : Except String GoString :=
  if host.head? = some (ch '[') then
    match lastIndexOf (ch ']') host with
    | none => .error "missing ']' in host"
    | some i =>
      if !url.validOptionalPort (host.drop (i + 1)) then .error "invalid port after host"
      else
        match indexOfSeq (ascii "%25") (host.take i) with
        | some zone => do
          let host1 ← url.unescape (host.take zone) .host
          let host2 ← url.unescape ((host.take i).drop zone) .zone
          let host3 ← url.unescape (host.drop i) .host
          return host1 ++ host2 ++ host3
        | none => url.unescape host .host
  else
    match lastIndexOf (ch ':') host with
    | some i =>
      if !url.validOptionalPort (host.drop i) then .error "invalid port after host"
      else url.unescape host .host
    | none => url.unescape host .host

/-- The function `parseAuthority`, without the user information it returns (the
program does not read it): the host, or the error of an invalid authority. -/
def url.parseAuthority (authority : GoString) : Except String GoString :=
  match lastIndexOf (ch '@') authority with
  | none => url.parseHost authority
  | some i => do
    let host ← url.parseHost (authority.drop (i + 1))
    let userinfo := authority.take i
    if !url.validUserinfo userinfo then throw "net/url: invalid userinfo"
    if !userinfo.contains (ch ':') then
      let _ ← url.unescape userinfo .userPassword
    else
      let _ ← url.unescape (cutAt (ch ':') userinfo).1 .userPassword
      let _ ← url.unescape (cutAt (ch ':') userinfo).2.1 .userPassword
    return host

/-- Whether a byte is an ASCII control character (`stringContainsCTLByte`). -/
def url.isCTLByte (b : Byte) : Bool := decide (b.val < 32 ∨ b.val = 127)

/-- The query split of `parse`: a single trailing `?` is dropped (`ForceQuery`),
otherwise the text is cut at its first `?`. Returns the part before the query
and the raw query. -/
def url.splitQuery (rest : GoString) : GoString × GoString :=
  if rest.getLast? = some (ch '?') ∧ rest.count (ch '?') = 1 then (rest.dropLast, [])
  else ((cutAt (ch '?') rest).1, (cutAt (ch '?') rest).2.1)

/-- The end of `parse`: when `rest` begins with `//` (and not with `///` unless
there is a scheme) the authority up to the next `/` is parsed into the host;
what remains is unescaped into the path. -/
def url.parseAuthorityAndPath (scheme rest rawQuery : GoString) : Except String url.URL :=
  if (scheme ≠ [] ∨ ¬ (ascii "///").isPrefixOf rest) ∧ (ascii "//").isPrefixOf rest then
    match url.parseAuthority (cutAt (ch '/') (rest.drop 2)).1 with
    | .error e => .error e
    | .ok host =>
      match url.unescape ((rest.drop 2).drop (cutAt (ch '/') (rest.drop 2)).1.length) .path with
      | .error e => .error e
      | .ok path => .ok ⟨scheme, [], host, path, rawQuery, []⟩
  else
    match url.unescape rest .path with
    | .error e => .error e
    | .ok path => .ok ⟨scheme, [], [], path, rawQuery, []⟩

/-- The middle of `parse`, after the scheme was split off and lowered: the
query is split off; a text that does not begin with `/` is opaque when there is
a scheme, and must not have a colon in its first segment otherwise. -/
def url.parseAfterScheme (scheme rest : GoString) : Except String url.URL :=
  if (url.splitQuery rest).1.head? ≠ some (ch '/') then
    if scheme ≠ [] then
      .ok ⟨scheme, (url.splitQuery rest).1, [], [], (url.splitQuery rest).2, []⟩
    else if (cutAt (ch '/') (url.splitQuery rest).1).1.contains (ch ':') then
      .error "first path segment in URL cannot contain colon"
    else url.parseAuthorityAndPath scheme (url.splitQuery rest).1 (url.splitQuery rest).2
  else url.parseAuthorityAndPath scheme (url.splitQuery rest).1 (url.splitQuery rest).2

/-- The function `parse(rawURL, viaRequest = false)`. -/
def url.parseNoFragment (rawURL : GoString) : Except String url.URL :=
  if rawURL.any url.isCTLByte then .error "net/url: invalid control character in URL"
  else if rawURL = ascii "*" then .ok ⟨[], [], [], ascii "*", [], []⟩
  else
    match url.getScheme rawURL with
    | .error e => .error e
    | .ok (scheme, rest) => url.parseAfterScheme (toLowerASCII scheme) rest

/-- The function `url.Parse(rawURL)`: the fragment is cut off at the first `#`,
the rest parsed, and the fragment unescaped. -/
def url.Parse (rawURL : GoString) : Except String url.URL :=
  match url.parseNoFragment (cutAt (ch '#') rawURL).1 with
  | .error e => .error e
  | .ok u =>
    if (cutAt (ch '#') rawURL).2.1 = [] then .ok u
    else
      match url.unescape (cutAt (ch '#') rawURL).2.1 .fragment with
      | .error e => .error e
      | .ok fragment => .ok { u with Fragment := fragment }

/-- The function `QueryUnescape`. -/
def url.QueryUnescape (s : GoString) : Except String GoString := url.unescape s .queryComponent

/-- The loop of `ParseQuery`: the pairs `key=value` between `&`, in order; a
piece with a semicolon, an empty piece and a piece with a bad escape are
skipped. `fuel` bounds the number of pieces. -/
def url.parseQueryLoop : Nat → GoString → List (GoString × GoString)
  | 0, _ => []
  | fuel + 1, query =>
    if query = [] then []
    else
      let piece := (cutAt (ch '&') query).1
      let tail := url.parseQueryLoop fuel (cutAt (ch '&') query).2.1
      if piece.contains (ch ';') then tail
      else if piece = [] then tail
      else
        match url.QueryUnescape (cutAt (ch '=') piece).1,
            url.QueryUnescape (cutAt (ch '=') piece).2.1 with
        | .ok key, .ok value => (key, value) :: tail
        | _, _ => tail

/-- The method `u.Query()`: the pairs of `u.RawQuery`, errors dropped. -/
def url.URL.Query (u : url.URL) : List (GoString × GoString) :=
  url.parseQueryLoop (u.RawQuery.length + 1) u.RawQuery

/-- The method `Values.Get(key)`: the first value stored under `key`, or the
empty text. -/
def url.Get (values : List (GoString × GoString)) (key : GoString) : GoString :=
  match values.find? (fun kv => kv.1 = key) with
  | some kv => kv.2
  | none => []

/-! ## Credentials: text form, construction, parsing -/

/-- The method `TOTP.URL`. -/
def TOTP.URL (totp : TOTP) : GoString :=
  sprintf (ascii "otpauth://totp/%v?issuer=%v&digits=%v&secret=%v")
    [.str totp.note, .str totp.issuer, .int totp.digits, .str totp.secret]

/-- The function `randomBytes(nBytes)`: a zeroed buffer of `nBytes` bytes filled
by `rand.Read`; `entropy` is what that call delivers, an error or the bytes. -/
def randomBytes (entropy : Except String (List Byte)) (nBytes : Nat) : Go (List Byte) :=
  match entropy with
  | .error e => .error (.libError e)
  | .ok bs => .ok ((bs ++ List.replicate nBytes 0).take nBytes)

/-- The function `TOTPFromURL`. The scheme/host panic carries the text
`wrong scheme/host`; the rendering of the URL that follows it in the program's
message is left out. -/
def TOTPFromURL (urlstring : GoString) : Go TOTP := do
  let u ← match url.Parse urlstring with
    | .ok u => pure u
    | .error e => throw (.libError e)
  panicIf (u.Scheme != ascii "otpauth" && u.Host != ascii "totp") "wrong scheme/host"
  let digits := (strconv.Atoi (url.Get u.Query (ascii "digits"))).1
  let err := (strconv.Atoi (url.Get u.Query (ascii "digits"))).2
  panicIf (digits > 8) "digits should be <= 8"
  panicOnErr err
  return {
    issuer := url.Get u.Query (ascii "issuer")
    digits := digits
    secret := url.Get u.Query (ascii "secret")
    note := strings.TrimLeft u.Path (ascii "/") }

/-- The function `CreateTOTP`; `entropy` is what `crypto/rand` delivers. -/
def CreateTOTP (entropy : Except String (List Byte)) (issuer : GoString) (digits : Int)
    (note : GoString) : Go TOTP := do
  panicIf (digits > 8) "digits should be <= 8"
  let random ← randomBytes entropy 20
  return {
    issuer := issuer
    digits := digits
    note := note
    secret := base32Encode random }

/-- The function `getOTPTask`: the text written to standard output. `qrToText`
stands for the QR decoder, an external library. -/
def getOTPTask (p : Platform) (qrToText : GoString → Go GoString) (qrPath otpUrl : GoString) :
    Go GoString := do
  panicIf (qrPath == [] && otpUrl == []) "Either otp_qr_path or otp_url must be set"
  let otpUrl ← if qrPath ≠ [] then qrToText qrPath else pure otpUrl
  let totp ← TOTPFromURL otpUrl
  let otp ← totp.OTP p
  return printlnInt otp

/-! ## Reference definitions taken from the specification -/

/-- The big-endian unsigned 32-bit value of four bytes, as arithmetic. -/
def specBigEndian32 (b0 b1 b2 b3 : Byte) : Nat :=
  b0.val * 2 ^ 24 + b1.val * 2 ^ 16 + b2.val * 2 ^ 8 + b3.val

/-- The truncation steps 3 to 5 of the specification on a MAC:
`offset = mac[19] & 0x0F`, `p` the big-endian value of the four bytes from
`offset`, and `p & 0x7FFFFFFF`. -/
def specTruncate (mac : List Byte) : Nat :=
  specBigEndian32
    (mac.getD ((mac.getD 19 0).val &&& 0x0F) 0)
    (mac.getD (((mac.getD 19 0).val &&& 0x0F) + 1) 0)
    (mac.getD (((mac.getD 19 0).val &&& 0x0F) + 2) 0)
    (mac.getD (((mac.getD 19 0).val &&& 0x0F) + 3) 0) &&& 0x7FFFFFFF

/-- The MAC of the RFC 6238 test vector at counter 1,
`75a48a19d4cbe100644e8ac1397eea747a2d33ab`. -/
def rfcMAC : List Byte :=
  [0x75, 0xa4, 0x8a, 0x19, 0xd4, 0xcb, 0xe1, 0x00, 0x64, 0x4e,
   0x8a, 0xc1, 0x39, 0x7e, 0xea, 0x74, 0x7a, 0x2d, 0x33, 0xab]

/-- The secret of the RFC 6238 test vector, the ASCII text `12345678901234567890`. -/
def rfcSecret : List Byte := ascii "12345678901234567890"

/-- The base32 text of `rfcSecret`, as a credential carries it. -/
def rfcSecretText : GoString := ascii "GEZDGNBVGY3TQOJQGEZDGNBVGY3TQOJQ"

/-- The unreserved characters of RFC 3986: letters, digits, `-`, `.`, `_`, `~`. -/
def isUnreservedByte (b : Byte) : Bool :=
  isLetterByte b || isDigitByte b || (ascii "-._~").contains b

/-- An upper-case hexadecimal digit. -/
def hexDigitUpper (n : Nat) : Byte := (ascii "0123456789ABCDEF").getD n 0

/-- Percent-encoding as the specification asks for the label: an unreserved byte
stands for itself, every other byte becomes `%XX`. -/
def specPercentEncode : GoString → GoString
  | [] => []
  | b :: bs =>
    (if isUnreservedByte b then [b]
     else [ch '%', hexDigitUpper (b.val / 16), hexDigitUpper (b.val % 16)])
      ++ specPercentEncode bs

/-- The canonical credential text of the specification:
`otpauth://totp/<percent-encoded label>?issuer=<issuer>&digits=<digits>&secret=<secret>`. -/
def specCanonicalURL (t : TOTP) : GoString :=
  ascii "otpauth://totp/" ++ specPercentEncode t.note ++ ascii "?issuer=" ++ t.issuer
    ++ ascii "&digits=" ++ formatInt t.digits ++ ascii "&secret=" ++ t.secret

/-- The rendering the specification asks for: the decimal text of the value
left-padded with `0` to `digits` characters. -/
def specRenderOTP (value : Nat) (digits : Nat) : GoString :=
  List.replicate (digits - (formatNat value).length) (ch '0') ++ formatNat value

/-! ## Fixed inputs used in the examples -/

/-- A platform whose clock reads `now`. -/
def platformAt (now : Int) : Platform := ⟨now, fun _ => 0⟩

/-- A QR decoder that is never consulted. -/
def noQR : GoString → Go GoString := fun _ => .ok []

/-- A byte a label can carry through `TOTP.URL` and `TOTPFromURL` unchanged: no
control byte and none of `#`, `?`, `%`. -/
def labelByteOK (b : Byte) : Bool :=
  !url.isCTLByte b && b != ch '#' && b != ch '?' && b != ch '%'

/-- A byte an issuer or a secret can carry through `TOTP.URL` and `TOTPFromURL`
unchanged: no control byte and none of `#`, `&`, `;`, `+`, `%`. -/
def issuerByteOK (b : Byte) : Bool :=
  !url.isCTLByte b && b != ch '#' && b != ch '&' && b != ch ';' && b != ch '+' && b != ch '%'

/-! ## Lemmas on slices and words -/

theorem byteAt_of_lt (s : List Byte) (i : Nat) (h : i < s.length) :
    byteAt s i = .ok (s.getD i 0) := by
  simp [byteAt, List.get?_eq_getElem?, List.getD_eq_getElem?_getD, List.getElem?_eq_getElem h]

theorem byteAt_error_of_le (s : List Byte) (i : Nat) (h : s.length ≤ i) :
    byteAt s i = .error (.runtime "index out of range") := by
  simp [byteAt, List.get?_eq_getElem?, List.getElem?_eq_none h]

theorem subslice_of_le (s : List Byte) (lo hi : Nat) (h1 : lo ≤ hi) (h2 : hi ≤ s.length) :
    subslice s lo hi = .ok ((s.drop lo).take (hi - lo)) := by
  simp [subslice, h1, h2]

theorem window_getD (s : List Byte) (o i : Nat) (hi : i < 4) :
    ((s.drop o).take 4).getD i 0 = s.getD (o + i) 0 := by
  simp [List.getD_eq_getElem?_getD, List.getElem?_take, hi]

theorem window_length (s : List Byte) (o : Nat) (h : o + 4 ≤ s.length) :
    ((s.drop o).take 4).length = 4 := by
  simp; omega

theorem orShift_eq_sum (b0 b1 b2 b3 : Byte) :
    (b3.val ||| (b2.val <<< 8) % 2 ^ 32 ||| (b1.val <<< 16) % 2 ^ 32
      ||| (b0.val <<< 24) % 2 ^ 32) = specBigEndian32 b0 b1 b2 b3 := by
  have h0 := b0.isLt
  have h1 := b1.isLt
  have h2 := b2.isLt
  have h3 := b3.isLt
  have e2 : (b2.val <<< 8) % 2 ^ 32 = 2 ^ 8 * b2.val := by
    rw [Nat.shiftLeft_eq, Nat.mod_eq_of_lt (by omega)]; ring
  have e1 : (b1.val <<< 16) % 2 ^ 32 = 2 ^ 16 * b1.val := by
    rw [Nat.shiftLeft_eq, Nat.mod_eq_of_lt (by omega)]; ring
  have e0 : (b0.val <<< 24) % 2 ^ 32 = 2 ^ 24 * b0.val := by
    rw [Nat.shiftLeft_eq, Nat.mod_eq_of_lt (by omega)]; ring
  rw [e2, e1, e0]
  have s1 : 2 ^ 8 * b2.val ||| b3.val = 2 ^ 8 * b2.val + b3.val :=
    (Nat.mul_add_lt_is_or (by omega) _).symm
  have s2 : 2 ^ 16 * b1.val ||| (2 ^ 8 * b2.val + b3.val)
      = 2 ^ 16 * b1.val + (2 ^ 8 * b2.val + b3.val) :=
    (Nat.mul_add_lt_is_or (by omega) _).symm
  have s3 : 2 ^ 24 * b0.val ||| (2 ^ 16 * b1.val + (2 ^ 8 * b2.val + b3.val))
      = 2 ^ 24 * b0.val + (2 ^ 16 * b1.val + (2 ^ 8 * b2.val + b3.val)) :=
    (Nat.mul_add_lt_is_or (by omega) _).symm
  rw [Nat.lor_comm b3.val, s1, Nat.lor_comm _ (2 ^ 16 * b1.val), s2,
    Nat.lor_comm _ (2 ^ 24 * b0.val), s3]
  unfold specBigEndian32
  ring

theorem specBigEndian32_lt (b0 b1 b2 b3 : Byte) : specBigEndian32 b0 b1 b2 b3 < 2 ^ 32 := by
  have h0 := b0.isLt
  have h1 := b1.isLt
  have h2 := b2.isLt
  have h3 := b3.isLt
  unfold specBigEndian32
  omega

theorem bigEndianUint32_of_length (w : List Byte) (h : w.length = 4) :
    bigEndianUint32 w = .ok (specBigEndian32 (w.getD 0 0) (w.getD 1 0) (w.getD 2 0) (w.getD 3 0)) := by
  unfold bigEndianUint32
  rw [byteAt_of_lt w 3 (by omega), byteAt_of_lt w 2 (by omega), byteAt_of_lt w 1 (by omega),
    byteAt_of_lt w 0 (by omega)]
  simp only [bind, Except.bind, pure, Except.pure]
  rw [orShift_eq_sum]

theorem offset_le (b : Byte) : b.val &&& 0xF ≤ 15 := Nat.and_le_right

theorem wrapInt32_of_lt (n : Nat) (h : n < 2 ^ 31) : wrapInt32 n = (n : Int) := by
  unfold wrapInt32
  have h1 : n % 2 ^ 32 = n := Nat.mod_eq_of_lt (by omega)
  rw [h1, if_pos h]

theorem mask31_eq_mod (v : Nat) : v &&& 0x7FFFFFFF = v % 2 ^ 31 :=
  Nat.and_pow_two_sub_one_eq_mod v 31

/-- The value `truncateSHA1` computes on a 20-byte input, in closed form. -/
theorem truncateSHA1_eq (mac : List Byte) (h : mac.length = 20) :
    truncateSHA1 mac = .ok (((specBigEndian32
      (mac.getD ((mac.getD 19 0).val &&& 0x0F) 0)
      (mac.getD (((mac.getD 19 0).val &&& 0x0F) + 1) 0)
      (mac.getD (((mac.getD 19 0).val &&& 0x0F) + 2) 0)
      (mac.getD (((mac.getD 19 0).val &&& 0x0F) + 3) 0) &&& 0x7FFFFFFF : Nat)) : Int) := by
  have ho := offset_le (mac.getD 19 0)
  unfold truncateSHA1
  rw [byteAt_of_lt mac 19 (by omega)]
  simp only [h, ne_eq, not_true_eq_false, if_false, bind, Except.bind, pure, Except.pure]
  rw [subslice_of_le mac _ _ (by omega) (by omega)]
  simp only [Nat.add_sub_cancel_left]
  rw [bigEndianUint32_of_length _ (window_length mac _ (by omega))]
  simp only []
  rw [window_getD mac _ 0 (by omega), window_getD mac _ 1 (by omega),
    window_getD mac _ 2 (by omega), window_getD mac _ 3 (by omega), Nat.add_zero]
  rw [wrapInt32_of_lt]
  rw [mask31_eq_mod]
  exact Nat.mod_lt _ (by norm_num)

theorem specTruncate_lt (mac : List Byte) : specTruncate mac < 2 ^ 31 := by
  unfold specTruncate
  rw [mask31_eq_mod]
  exact Nat.mod_lt _ (by norm_num)

theorem truncateSHA1_spec (mac : List Byte) (h : mac.length = 20) :
    truncateSHA1 mac = .ok ((specTruncate mac : Nat) : Int) :=
  truncateSHA1_eq mac h

theorem truncateSHA1_length_error (inp : List Byte) (h : inp.length ≠ 20) :
    truncateSHA1 inp = .error (.message ("truncate.inp's length should be 20, but is "
      ++ String.mk ((formatNat inp.length).map fun b => Char.ofNat b.val))) := by
  unfold truncateSHA1
  simp [h, bind, Except.bind, throw, throwThe, MonadExceptOf.throw]

/-! ## Dynamic truncation: value and bounds -/

/-- C1: for every 20-byte input `mac`, `truncateSHA1 mac` returns the big-endian
unsigned 32-bit value of the four bytes `mac[o] .. mac[o+3]`, `o = mac[19] & 0x0F`,
with its most significant bit cleared (the same as that value modulo `2^31`); the
four indices lie inside the input and the result lies in `[0, 2^31 - 1]`. -/
theorem truncateSHA1_dynamic_truncation (mac : List Byte) (h : mac.length = 20) :
    ((mac.getD 19 0).val &&& 0x0F) + 3 < mac.length ∧
    truncateSHA1 mac = .ok (((specBigEndian32
      (mac.getD ((mac.getD 19 0).val &&& 0x0F) 0)
      (mac.getD (((mac.getD 19 0).val &&& 0x0F) + 1) 0)
      (mac.getD (((mac.getD 19 0).val &&& 0x0F) + 2) 0)
      (mac.getD (((mac.getD 19 0).val &&& 0x0F) + 3) 0) &&& 0x7FFFFFFF : Nat)) : Int) ∧
    specTruncate mac = specBigEndian32
      (mac.getD ((mac.getD 19 0).val &&& 0x0F) 0)
      (mac.getD (((mac.getD 19 0).val &&& 0x0F) + 1) 0)
      (mac.getD (((mac.getD 19 0).val &&& 0x0F) + 2) 0)
      (mac.getD (((mac.getD 19 0).val &&& 0x0F) + 3) 0) % 2 ^ 31 ∧
    (∀ r, truncateSHA1 mac = .ok r → 0 ≤ r ∧ r ≤ 2 ^ 31 - 1) := by
  have ho := offset_le (mac.getD 19 0)
  refine ⟨by omega, truncateSHA1_eq mac h, ?_, ?_⟩
  · unfold specTruncate
    rw [mask31_eq_mod]
  · intro r hr
    rw [truncateSHA1_spec mac h] at hr
    have hlt := specTruncate_lt mac
    cases hr
    constructor <;> omega

/-- C1 at the RFC 6238 MAC: offset 11, bytes `c1 39 7e ea`, result 1094287082. -/
theorem truncateSHA1_dynamic_truncation_witness :
    rfcMAC.length = 20 ∧ truncateSHA1 rfcMAC = .ok 1094287082 ∧
    (∀ r, truncateSHA1 rfcMAC = .ok r → 0 ≤ r ∧ r ≤ 2 ^ 31 - 1) :=
  ⟨by decide, by decide, (truncateSHA1_dynamic_truncation rfcMAC (by decide)).2.2.2⟩

/-- C2: `truncateSHA1` panics exactly on inputs whose length is not 20. On a
20-byte input the offset `mac[19] & 0x0F` is at most 15, the last index read is
at most 18, the reads `inp[19]` and `inp[offset:offset+4]` succeed and a value is
returned; on any other length the call aborts with the length message. -/
theorem truncateSHA1_panics_iff (inp : List Byte) :
    ((∃ e, truncateSHA1 inp = .error e) ↔ inp.length ≠ 20) ∧
    (inp.length = 20 →
      (inp.getD 19 0).val &&& 0xF ≤ 15 ∧
      ((inp.getD 19 0).val &&& 0xF) + 3 ≤ 18 ∧
      byteAt inp 19 = .ok (inp.getD 19 0) ∧
      (∃ w, subslice inp ((inp.getD 19 0).val &&& 0xF) (((inp.getD 19 0).val &&& 0xF) + 4) = .ok w
        ∧ w.length = 4) ∧
      ∃ r, truncateSHA1 inp = .ok r) ∧
    (inp.length ≠ 20 → ∃ msg, truncateSHA1 inp = .error (.message msg)) := by
  have ho := offset_le (inp.getD 19 0)
  refine ⟨⟨?_, ?_⟩, ?_, ?_⟩
  · rintro ⟨e, he⟩ hlen
    rw [truncateSHA1_spec inp hlen] at he
    cases he
  · intro hlen
    exact ⟨_, truncateSHA1_length_error inp hlen⟩
  · intro hlen
    refine ⟨ho, by omega, byteAt_of_lt inp 19 (by omega), ⟨_, subslice_of_le inp _ _ (by omega) (by omega), ?_⟩,
      ⟨_, truncateSHA1_spec inp hlen⟩⟩
    simp only [Nat.add_sub_cancel_left]
    exact window_length inp _ (by omega)
  · intro hlen
    exact ⟨_, truncateSHA1_length_error inp hlen⟩

/-! ## Digit reduction -/

theorem pow10Int32_of_range (p : Platform) (digits : Int) (h0 : 0 ≤ digits) (h9 : digits ≤ 9) :
    pow10Int32 p digits = 10 ^ digits.toNat := by
  unfold pow10Int32
  rw [if_neg (by omega), if_pos h9]

theorem pow10_pos_int (n : Nat) : (0 : Int) < 10 ^ n := by positivity

theorem otpOfMAC_of_range (p : Platform) (mac : List Byte) (digits : Int)
    (hlen : mac.length = 20) (h0 : 0 ≤ digits) (h9 : digits ≤ 9) :
    otpOfMAC p mac digits = .ok (((specTruncate mac % 10 ^ digits.toNat : Nat)) : Int) := by
  unfold otpOfMAC
  rw [truncateSHA1_spec mac hlen, pow10Int32_of_range p digits h0 h9]
  simp only [bind, Except.bind, goRem]
  rw [if_neg (ne_of_gt (pow10_pos_int _))]
  congr 1
  rw [Int.ofNat_tmod]
  norm_cast

theorem pow10_le_of_le8 (n : Nat) (h : n ≤ 8) : 10 ^ n ≤ 100000000 := by
  calc 10 ^ n ≤ 10 ^ 8 := Nat.pow_le_pow_right (by norm_num) h
    _ = 100000000 := by norm_num

/-- C10: for every 20-byte MAC and every digit count in `1..8` the modulus
`int32(10^digits)` is the exact power and below `2^31`, and the value
`truncateSHA1(mac) % int32(10^digits)` of `TOTP.OTP` is the mathematical remainder
of the 31-bit truncated value modulo `10^digits`, hence in `[0, 10^digits - 1]`. -/
theorem otp_digit_reduction_exact (p : Platform) (mac : List Byte) (digits : Int)
    (hlen : mac.length = 20) (h1 : 1 ≤ digits) (h8 : digits ≤ 8) :
    pow10Int32 p digits = 10 ^ digits.toNat ∧
    (10 : Int) ^ digits.toNat < 2 ^ 31 ∧
    truncateSHA1 mac = .ok ((specTruncate mac : Nat) : Int) ∧
    otpOfMAC p mac digits = .ok (((specTruncate mac % 10 ^ digits.toNat : Nat)) : Int) ∧
    (∀ r, otpOfMAC p mac digits = .ok r → 0 ≤ r ∧ r ≤ 10 ^ digits.toNat - 1) := by
  have hn : digits.toNat ≤ 8 := by omega
  have hp := pow10_le_of_le8 _ hn
  have hpos : 0 < 10 ^ digits.toNat := by positivity
  refine ⟨pow10Int32_of_range p digits (by omega) (by omega), ?_, truncateSHA1_spec mac hlen,
    otpOfMAC_of_range p mac digits hlen (by omega) (by omega), ?_⟩
  · have : ((10 : Int) ^ digits.toNat) = ((10 ^ digits.toNat : Nat) : Int) := by norm_cast
    rw [this]
    omega
  · intro r hr
    rw [otpOfMAC_of_range p mac digits hlen (by omega) (by omega)] at hr
    cases hr
    have hm := Nat.mod_lt (specTruncate mac) hpos
    have : ((10 : Int) ^ digits.toNat) = ((10 ^ digits.toNat : Nat) : Int) := by norm_cast
    rw [this]
    constructor <;> omega

/-- C10 at the RFC 6238 MAC with eight digits. -/
theorem otp_digit_reduction_exact_witness :
    rfcMAC.length = 20 ∧ (1 : Int) ≤ 8 ∧
    otpOfMAC ⟨59, fun _ => 0⟩ rfcMAC 8 = .ok 94287082 ∧
    (∀ r, otpOfMAC ⟨59, fun _ => 0⟩ rfcMAC 8 = .ok r → 0 ≤ r ∧ r ≤ 10 ^ (8 : Int).toNat - 1) :=
  ⟨by decide, by decide, by decide,
    (otp_digit_reduction_exact ⟨59, fun _ => 0⟩ rfcMAC 8 (by decide) (by decide) (by decide)).2.2.2.2⟩

/-! ## The RFC 6238 test vector -/

theorem rfcSecret_encodes : base32Encode rfcSecret = rfcSecretText := by decide

theorem rfcSecret_decodes : base32DecodeString rfcSecretText = .ok rfcSecret := by decide

theorem rfc_hmac_counter1 : hmacSHA1 rfcSecret [0, 0, 0, 0, 0, 0, 0, 1] = rfcMAC := by decide!

theorem sha1_length (msg : List Byte) : (sha1 msg).length = 20 := by
  simp [sha1, wordBytes]

theorem hmacSHA1_length (key msg : List Byte) : (hmacSHA1 key msg).length = 20 := by
  unfold hmacSHA1
  exact sha1_length _

theorem secretBytes_of_ok (t : TOTP) (key : List Byte)
    (h : base32DecodeString t.secret = .ok key) : t.secretBytes = .ok key := by
  unfold TOTP.secretBytes
  rw [h]

theorem secretBytes_of_error (t : TOTP) (e : String)
    (h : base32DecodeString t.secret = .error e) : t.secretBytes = .error (.libError e) := by
  unfold TOTP.secretBytes
  rw [h]

theorem OTP_of_key (p : Platform) (t : TOTP) (key : List Byte)
    (h : base32DecodeString t.secret = .ok key) :
    t.OTP p = otpOfMAC p (hmacSHA1 key (TOTP.timeSeqBytes p)) t.digits := by
  unfold TOTP.OTP
  rw [secretBytes_of_ok t key h]
  rfl

theorem timeSeqBytes_eq (now : Int) (huge : Int → Int) :
    TOTP.timeSeqBytes ⟨now, huge⟩ = putUint64BE ((Int.tdiv now 30 % 2 ^ 64).toNat) := rfl

theorem counter_at_59 : (Int.tdiv 59 30 % 2 ^ 64).toNat = 1 := by decide

/-- C3: the RFC 6238 vector. Counter 1 is the byte string `00 .. 00 01`; the
HMAC-SHA1 of it under the secret `12345678901234567890` is
`75a48a19d4cbe100644e8ac1397eea747a2d33ab`; `truncateSHA1` of that MAC is
1094287082, whose remainder modulo `10^8` is 94287082; and `TOTP.OTP` of an
8-digit credential with that secret, read at time 59 (counter 1), returns
94287082. -/
theorem rfc6238_counter1_vector :
    putUint64BE 1 = [0, 0, 0, 0, 0, 0, 0, 1] ∧
    hmacSHA1 rfcSecret (putUint64BE 1) = rfcMAC ∧
    truncateSHA1 rfcMAC = .ok 1094287082 ∧
    Int.tmod 1094287082 (10 ^ 8) = 94287082 ∧
    (∀ (huge : Int → Int) (issuer note : GoString),
      TOTP.timeSeqBytes ⟨59, huge⟩ = putUint64BE 1 ∧
      TOTP.OTP ⟨59, huge⟩ ⟨issuer, 8, rfcSecretText, note⟩ = .ok 94287082) := by
  have hc : putUint64BE 1 = [0, 0, 0, 0, 0, 0, 0, 1] := by decide
  refine ⟨hc, ?_, by decide, by decide, ?_⟩
  · rw [hc]
    exact rfc_hmac_counter1
  · intro huge issuer note
    have ht : TOTP.timeSeqBytes ⟨59, huge⟩ = putUint64BE 1 := by
      rw [timeSeqBytes_eq, counter_at_59]
    refine ⟨ht, ?_⟩
    rw [OTP_of_key _ _ rfcSecret rfcSecret_decodes, ht, hc, rfc_hmac_counter1]
    unfold otpOfMAC
    have h1 : truncateSHA1 rfcMAC = .ok 1094287082 := by decide
    rw [h1]
    have h2 : pow10Int32 ⟨59, huge⟩ 8 = 100000000 :=
      pow10Int32_of_range _ 8 (by decide) (by decide)
    simp only [bind, Except.bind]
    rw [h2]
    decide

/-! ## Decimal text: `strconv.Atoi` reads what `%v` wrote -/

theorem digitByte_val (d : Nat) : (digitByte d).val = 48 + d % 10 := by
  have h : d % 10 < 10 := Nat.mod_lt _ (by norm_num)
  simp only [digitByte, Fin.ofNat, Fin.val_mk]
  omega

theorem isDigitByte_digitByte (d : Nat) : isDigitByte (digitByte d) = true := by
  have h : d % 10 < 10 := Nat.mod_lt _ (by norm_num)
  simp only [isDigitByte, digitByte_val, decide_eq_true_eq]
  omega

theorem parseDecimal_digitByte (d : Nat) (cs : GoString) (k : Nat) :
    parseDecimal (digitByte d :: cs) k = parseDecimal cs (k * 10 + d % 10) := by
  simp only [parseDecimal, isDigitByte_digitByte, if_true, digitByte_val]
  congr 1
  omega

theorem parseDecimal_natDigitsAux (f : Nat) :
    ∀ n, n < f → ∃ m, ∀ acc k,
      parseDecimal (natDigitsAux f n acc) k = parseDecimal acc (k * 10 ^ m + n) := by
  induction f with
  | zero => intro n h; omega
  | succ f ih =>
    intro n hn
    by_cases h10 : n < 10
    · refine ⟨1, fun acc k => ?_⟩
      simp only [natDigitsAux, if_pos h10]
      rw [parseDecimal_digitByte, Nat.mod_eq_of_lt h10, pow_one]
    · obtain ⟨m, hm⟩ := ih (n / 10) (by omega)
      refine ⟨m + 1, fun acc k => ?_⟩
      simp only [natDigitsAux, if_neg h10]
      rw [hm, parseDecimal_digitByte]
      congr 1
      have h1 : n % 10 % 10 = n % 10 := Nat.mod_mod _ _
      have h2 := Nat.div_add_mod n 10
      rw [h1, pow_succ]
      nlinarith [h2]

theorem parseDecimal_formatNat (n : Nat) : parseDecimal (formatNat n) 0 = some n := by
  obtain ⟨m, hm⟩ := parseDecimal_natDigitsAux (n + 1) n (by omega)
  unfold formatNat
  rw [hm]
  simp [parseDecimal]

theorem natDigitsAux_head (f : Nat) :
    ∀ n acc, n < f → ∃ c cs, natDigitsAux f n acc = c :: cs ∧ isDigitByte c = true := by
  induction f with
  | zero => intro n acc h; omega
  | succ f ih =>
    intro n acc hn
    by_cases h10 : n < 10
    · exact ⟨digitByte n, acc, by simp only [natDigitsAux, if_pos h10], isDigitByte_digitByte n⟩
    · simp only [natDigitsAux, if_neg h10]
      exact ih (n / 10) _ (by omega)

theorem formatNat_head (n : Nat) : ∃ c cs, formatNat n = c :: cs ∧ isDigitByte c = true :=
  natDigitsAux_head (n + 1) n [] (by omega)

theorem natDigitsAux_all_digits (f : Nat) :
    ∀ n acc, (∀ b ∈ acc, isDigitByte b = true) →
      ∀ b ∈ natDigitsAux f n acc, isDigitByte b = true := by
  induction f with
  | zero => intro n acc hacc b hb; exact hacc b hb
  | succ f ih =>
    intro n acc hacc b hb
    by_cases h10 : n < 10
    · simp only [natDigitsAux, if_pos h10, List.mem_cons] at hb
      rcases hb with rfl | hb
      · exact isDigitByte_digitByte n
      · exact hacc b hb
    · simp only [natDigitsAux, if_neg h10] at hb
      refine ih (n / 10) _ ?_ b hb
      intro c hc
      simp only [List.mem_cons] at hc
      rcases hc with rfl | hc
      · exact isDigitByte_digitByte _
      · exact hacc c hc

theorem formatNat_all_digits (n : Nat) : ∀ b ∈ formatNat n, isDigitByte b = true :=
  natDigitsAux_all_digits (n + 1) n [] (by simp)

theorem formatInt_bytes (i : Int) : ∀ b ∈ formatInt i, isDigitByte b = true ∨ b = ch '-' := by
  intro b hb
  unfold formatInt at hb
  split at hb
  · simp only [List.mem_cons] at hb
    rcases hb with rfl | hb
    · exact Or.inr rfl
    · exact Or.inl (formatNat_all_digits _ b hb)
  · exact Or.inl (formatNat_all_digits _ b hb)

theorem digit_ne_sign (c : Byte) (h : isDigitByte c = true) : ¬ (c = ch '-' ∨ c = ch '+') := by
  rintro (rfl | rfl) <;> revert h <;> decide

/-- Reading back a decimal text: `strconv.Atoi` returns the integer that `%v`
rendered, without an error, for every value of a 64-bit `int`. -/
theorem atoi_formatInt (i : Int) (hlo : -(2 ^ 63) ≤ i) (hhi : i < 2 ^ 63) :
    strconv.Atoi (formatInt i) = (i, none) := by
  by_cases hneg : i < 0
  · obtain ⟨c, cs, hcs, _⟩ := formatNat_head i.natAbs
    have hp := parseDecimal_formatNat i.natAbs
    simp only [formatInt, if_pos hneg, strconv.Atoi, true_or, if_true]
    rw [hcs] at hp ⊢
    simp only [reduceCtorEq, if_false, hp]
    have hle : ¬ (i.natAbs > 2 ^ 63) := by omega
    rw [if_neg hle]
    congr 1
    omega
  · obtain ⟨c, cs, hcs, hc⟩ := formatNat_head i.natAbs
    have hp := parseDecimal_formatNat i.natAbs
    have hsign := digit_ne_sign c hc
    have hminus : c ≠ ch '-' := fun h => hsign (Or.inl h)
    simp only [formatInt, if_neg hneg]
    rw [hcs] at hp ⊢
    simp only [strconv.Atoi, if_neg hsign, reduceCtorEq, if_false, hp, if_neg hminus]
    have hlt : ¬ (i.natAbs ≥ 2 ^ 63) := by omega
    rw [if_neg hlt]
    congr 1
    omega

/-! ## The credential text -/

theorem URL_eq_concat (t : TOTP) :
    t.URL = ascii "otpauth://totp/" ++ t.note ++ ascii "?issuer=" ++ t.issuer
      ++ ascii "&digits=" ++ formatInt t.digits ++ ascii "&secret=" ++ t.secret := by
  have h : t.URL = ascii "otpauth://totp/" ++ (t.note ++ (ascii "?issuer=" ++ (t.issuer
      ++ (ascii "&digits=" ++ (formatInt t.digits ++ (ascii "&secret=" ++ (t.secret ++ []))))))) :=
    rfl
  rw [h]
  simp only [List.append_assoc, List.append_nil]

theorem specPercentEncode_of_unreserved (s : GoString)
    (h : s.all isUnreservedByte = true) : specPercentEncode s = s := by
  induction s with
  | nil => rfl
  | cons b bs ih =>
    simp only [List.all_cons, Bool.and_eq_true] at h
    simp only [specPercentEncode, h.1, if_true, ih h.2, List.singleton_append]

/-- C9 as amended: for every credential, `TOTP.URL` is `otpauth://totp/`, the
label as it is (no percent-encoding is applied), `?issuer=` and the issuer,
`&digits=` and the decimal digit count, `&secret=` and the secret text; this is
the canonical text of the specification whenever the label consists of
unreserved characters. -/
theorem URL_format (t : TOTP) :
    t.URL = ascii "otpauth://totp/" ++ t.note ++ ascii "?issuer=" ++ t.issuer
      ++ ascii "&digits=" ++ formatInt t.digits ++ ascii "&secret=" ++ t.secret ∧
    (t.note.all isUnreservedByte = true → t.URL = specCanonicalURL t) := by
  refine ⟨URL_eq_concat t, fun h => ?_⟩
  rw [URL_eq_concat, specCanonicalURL, specPercentEncode_of_unreserved _ h]

/-- C9 as stated fails: for the label `a b` the program writes the space as it
is, where the canonical text has `%20`. -/
theorem URL_label_not_percent_encoded :
    (TOTP.mk (ascii "iss") 6 (ascii "SECRET") (ascii "a b")).URL
      = ascii "otpauth://totp/a b?issuer=iss&digits=6&secret=SECRET" ∧
    specCanonicalURL (TOTP.mk (ascii "iss") 6 (ascii "SECRET") (ascii "a b"))
      = ascii "otpauth://totp/a%20b?issuer=iss&digits=6&secret=SECRET" ∧
    (TOTP.mk (ascii "iss") 6 (ascii "SECRET") (ascii "a b")).URL
      ≠ specCanonicalURL (TOTP.mk (ascii "iss") 6 (ascii "SECRET") (ascii "a b")) := by
  decide

/-! ## Digit-count checks of the constructors -/

theorem TOTPFromURL_of_parse (s : GoString) (u : url.URL) (h : url.Parse s = .ok u) :
    TOTPFromURL s =
      if (u.Scheme != ascii "otpauth" && u.Host != ascii "totp") = true then
        .error (.message "wrong scheme/host")
      else if (strconv.Atoi (url.Get u.Query (ascii "digits"))).1 > 8 then
        .error (.message "digits should be <= 8")
      else
        match (strconv.Atoi (url.Get u.Query (ascii "digits"))).2 with
        | some e => .error (.libError e)
        | none => .ok {
            issuer := url.Get u.Query (ascii "issuer")
            digits := (strconv.Atoi (url.Get u.Query (ascii "digits"))).1
            secret := url.Get u.Query (ascii "secret")
            note := strings.TrimLeft u.Path (ascii "/") } := by
  unfold TOTPFromURL
  rw [h]
  simp only [panicIf, panicOnErr, bind, Except.bind, pure, Except.pure]
  by_cases h1 : (u.Scheme != ascii "otpauth" && u.Host != ascii "totp") = true
  · rw [if_pos h1, if_pos h1]
  · rw [if_neg h1, if_neg h1]
    by_cases h2 : (strconv.Atoi (url.Get u.Query (ascii "digits"))).1 > 8
    · rw [if_pos h2, if_pos (decide_eq_true h2)]
    · rw [if_neg h2, if_neg (by simpa using h2)]
      cases hA : (strconv.Atoi (url.Get u.Query (ascii "digits"))).2 <;> rfl

theorem TOTPFromURL_of_parse_error (s : GoString) (e : String) (h : url.Parse s = .error e) :
    TOTPFromURL s = .error (.libError e) := by
  unfold TOTPFromURL
  rw [h]
  rfl

theorem TOTPFromURL_digits_le (s : GoString) (t : TOTP) (h : TOTPFromURL s = .ok t) :
    t.digits ≤ 8 := by
  cases hp : url.Parse s with
  | error e => rw [TOTPFromURL_of_parse_error s e hp] at h; cases h
  | ok u =>
    rw [TOTPFromURL_of_parse s u hp] at h
    split at h
    · cases h
    · split at h
      · cases h
      · rename_i _ hd
        split at h
        · cases h
        · cases h
          exact not_lt.mp hd

theorem CreateTOTP_eq (entropy : Except String (List Byte)) (issuer : GoString) (digits : Int)
    (note : GoString) :
    CreateTOTP entropy issuer digits note =
      if digits > 8 then .error (.message "digits should be <= 8")
      else match entropy with
        | .error e => .error (.libError e)
        | .ok bs => .ok {
            issuer := issuer
            digits := digits
            note := note
            secret := base32Encode ((bs ++ List.replicate 20 0).take 20) } := by
  unfold CreateTOTP
  simp only [panicIf, randomBytes, bind, Except.bind, pure, Except.pure]
  by_cases h2 : digits > 8
  · rw [if_pos h2, if_pos (decide_eq_true h2)]
  · rw [if_neg h2, if_neg (by simpa using h2)]
    cases entropy <;> rfl

theorem atoi_formatInt_gt (d : Int) (h : 8 < d) : (strconv.Atoi (formatInt d)).1 > 8 := by
  by_cases hhi : d < 2 ^ 63
  · rw [atoi_formatInt d (by omega) hhi]
    exact h
  · obtain ⟨c, cs, hcs, hc⟩ := formatNat_head d.natAbs
    have hp := parseDecimal_formatNat d.natAbs
    have hsign := digit_ne_sign c hc
    have hminus : c ≠ ch '-' := fun h => hsign (Or.inl h)
    have hneg : ¬ d < 0 := by omega
    simp only [formatInt, if_neg hneg]
    rw [hcs] at hp ⊢
    simp only [strconv.Atoi, if_neg hsign, reduceCtorEq, if_false, hp, if_neg hminus]
    have hge : d.natAbs ≥ 2 ^ 63 := by omega
    rw [if_pos hge]
    norm_num

/-- C4 as amended: both constructors check the digit count against the upper
bound 8. For every digit count above 8, `CreateTOTP` panics and `TOTPFromURL`
panics on every URI with scheme `otpauth` and host `totp` whose `digits`
parameter is that number; a credential returned by `CreateTOTP` carries the
digit count it was given, and neither operation ever returns a credential with
more than 8 digits. -/
theorem digits_upper_bound_enforced (entropy : Except String (List Byte))
    (issuer note : GoString) (digits : Int) :
    (8 < digits →
      CreateTOTP entropy issuer digits note = .error (.message "digits should be <= 8")) ∧
    (∀ t, CreateTOTP entropy issuer digits note = .ok t → t.digits = digits ∧ digits ≤ 8) ∧
    (8 < digits → ∀ urlstring u, url.Parse urlstring = .ok u →
      u.Scheme = ascii "otpauth" → u.Host = ascii "totp" →
      url.Get u.Query (ascii "digits") = formatInt digits →
      TOTPFromURL urlstring = .error (.message "digits should be <= 8")) ∧
    (∀ urlstring t, TOTPFromURL urlstring = .ok t → t.digits ≤ 8) := by
  refine ⟨?_, ?_, ?_, ?_⟩
  · intro h
    rw [CreateTOTP_eq, if_pos h]
  · intro t ht
    rw [CreateTOTP_eq] at ht
    by_cases h : digits > 8
    · rw [if_pos h] at ht
      cases ht
    · rw [if_neg h] at ht
      cases entropy with
      | error e => cases ht
      | ok bs =>
        cases ht
        exact ⟨rfl, not_lt.mp h⟩
  · intro h urlstring u hu hs hh hd
    rw [TOTPFromURL_of_parse urlstring u hu, hd]
    have hcond : ¬ (u.Scheme != ascii "otpauth" && u.Host != ascii "totp") = true := by
      simp [hs]
    rw [if_neg hcond, if_pos (atoi_formatInt_gt digits h)]
  · intro urlstring t ht
    exact TOTPFromURL_digits_le urlstring t ht

/-- C4 as stated fails: the digit counts 0 and -1 are accepted by `CreateTOTP`
and by `TOTPFromURL`, which return credentials carrying them. -/
theorem digits_lower_bound_not_enforced :
    CreateTOTP (.ok rfcSecret) (ascii "iss") 0 (ascii "user")
      = .ok ⟨ascii "iss", 0, rfcSecretText, ascii "user"⟩ ∧
    CreateTOTP (.ok rfcSecret) (ascii "iss") (-1) (ascii "user")
      = .ok ⟨ascii "iss", -1, rfcSecretText, ascii "user"⟩ ∧
    TOTPFromURL (ascii "otpauth://totp/user?issuer=iss&digits=0&secret=SECRET")
      = .ok ⟨ascii "iss", 0, ascii "SECRET", ascii "user"⟩ ∧
    TOTPFromURL (ascii "otpauth://totp/user?issuer=iss&digits=-1&secret=SECRET")
      = .ok ⟨ascii "iss", -1, ascii "SECRET", ascii "user"⟩ := by
  decide

/-- C4 as amended, at the digit count 9: `CreateTOTP` refuses it, and so does
`TOTPFromURL` for a URI that carries `digits=9`. -/
theorem digits_upper_bound_enforced_witness :
    ((8 : Int) < 9 ∧
      CreateTOTP (.ok rfcSecret) (ascii "iss") 9 (ascii "user")
        = .error (.message "digits should be <= 8")) ∧
    TOTPFromURL (ascii "otpauth://totp/user?issuer=iss&digits=9&secret=SECRET")
      = .error (.message "digits should be <= 8") :=
  ⟨⟨by decide, (digits_upper_bound_enforced (.ok rfcSecret) (ascii "iss") (ascii "user") 9).1
      (by decide)⟩,
    (digits_upper_bound_enforced (.ok rfcSecret) (ascii "iss") (ascii "user") 9).2.2.1
      (by decide) (ascii "otpauth://totp/user?issuer=iss&digits=9&secret=SECRET")
      ⟨ascii "otpauth", [], ascii "totp", ascii "/user",
        ascii "issuer=iss&digits=9&secret=SECRET", []⟩
      (by decide) (by decide) (by decide) (by decide)⟩

/-! ## The scheme and host check -/

/-- C5, the behaviour of the code at the failing inputs: `TOTPFromURL` returns
a credential for a URI with host `hotp` and for a URI with scheme `https`; it
panics only when scheme and host are both wrong. In general, once the URI
parses, the scheme/host panic is raised exactly when the scheme is not
`otpauth` and the host is not `totp`. -/
theorem TOTPFromURL_accepts_wrong_scheme_or_host :
    TOTPFromURL (ascii "otpauth://hotp/user?issuer=iss&digits=6&secret=SECRET")
      = .ok ⟨ascii "iss", 6, ascii "SECRET", ascii "user"⟩ ∧
    TOTPFromURL (ascii "https://totp/user?issuer=iss&digits=6&secret=SECRET")
      = .ok ⟨ascii "iss", 6, ascii "SECRET", ascii "user"⟩ ∧
    TOTPFromURL (ascii "https://hotp/user?issuer=iss&digits=6&secret=SECRET")
      = .error (.message "wrong scheme/host") ∧
    (∀ s u, url.Parse s = .ok u →
      (TOTPFromURL s = .error (.message "wrong scheme/host") ↔
        (u.Scheme ≠ ascii "otpauth" ∧ u.Host ≠ ascii "totp"))) := by
  refine ⟨by decide, by decide, by decide, ?_⟩
  intro s u hu
  rw [TOTPFromURL_of_parse s u hu]
  by_cases h1 : (u.Scheme != ascii "otpauth" && u.Host != ascii "totp") = true
  · rw [if_pos h1]
    simpa using h1
  · rw [if_neg h1]
    have h1' : ¬ (u.Scheme ≠ ascii "otpauth" ∧ u.Host ≠ ascii "totp") := by simpa using h1
    refine ⟨fun h => ?_, fun h => absurd h h1'⟩
    exfalso
    split at h
    · exact absurd h (by decide)
    · split at h <;> cases h

/-! ## Lemmas on cutting and unescaping -/

theorem cutAt_of_not_mem (sep : Byte) (s : GoString) (h : sep ∉ s) :
    cutAt sep s = (s, [], false) := by
  induction s with
  | nil => rfl
  | cons c cs ih =>
    have hc : c ≠ sep := fun e => h (e ▸ List.mem_cons_self _ _)
    have hcs : sep ∉ cs := fun m => h (List.mem_cons_of_mem _ m)
    simp only [cutAt, if_neg hc, ih hcs]

theorem cutAt_append_sep (sep : Byte) (a b : GoString) (h : sep ∉ a) :
    cutAt sep (a ++ sep :: b) = (a, b, true) := by
  induction a with
  | nil => simp only [List.nil_append, cutAt, if_true]
  | cons c cs ih =>
    have hc : c ≠ sep := fun e => h (e ▸ List.mem_cons_self _ _)
    have hcs : sep ∉ cs := fun m => h (List.mem_cons_of_mem _ m)
    rw [List.cons_append, cutAt, if_neg hc, ih hcs]

theorem unescapeCheck_of_plain (mode : url.Mode) (hh : mode ≠ .host) (hz : mode ≠ .zone)
    (s : GoString) (h : ch '%' ∉ s) : url.unescapeCheck mode s = .ok () := by
  induction s with
  | nil => rfl
  | cons c cs ih =>
    have hc : c ≠ ch '%' := fun e => h (e ▸ List.mem_cons_self _ _)
    have hcs : ch '%' ∉ cs := fun m => h (List.mem_cons_of_mem _ m)
    have hm : ¬ ((mode = .host ∨ mode = .zone) ∧ c.val < 128 ∧ url.shouldEscapeHost c = true) :=
      fun hx => hx.1.elim hh hz
    rw [url.unescapeCheck.eq_def]
    simp only [if_neg hc, if_neg hm]
    exact ih hcs

theorem unescapeBuild_of_plain (mode : url.Mode) (s : GoString) (h : ch '%' ∉ s)
    (hp : mode = .queryComponent → ch '+' ∉ s) : url.unescapeBuild mode s = s := by
  induction s with
  | nil => rfl
  | cons c cs ih =>
    have hc : c ≠ ch '%' := fun e => h (e ▸ List.mem_cons_self _ _)
    have hcs : ch '%' ∉ cs := fun m => h (List.mem_cons_of_mem _ m)
    have hplus : ¬ (c = ch '+' ∧ mode = .queryComponent) :=
      fun hx => hp hx.2 (hx.1 ▸ List.mem_cons_self _ _)
    rw [url.unescapeBuild.eq_def]
    simp only [if_neg hc, if_neg hplus]
    rw [ih hcs (fun hm m => hp hm (List.mem_cons_of_mem _ m))]

theorem unescape_of_plain (mode : url.Mode) (hh : mode ≠ .host) (hz : mode ≠ .zone)
    (s : GoString) (h : ch '%' ∉ s) (hp : mode = .queryComponent → ch '+' ∉ s) :
    url.unescape s mode = .ok s := by
  unfold url.unescape
  rw [unescapeCheck_of_plain mode hh hz s h, unescapeBuild_of_plain mode s h hp]

theorem splitQuery_append (pre query : GoString) (h : ch '?' ∉ pre) :
    url.splitQuery (pre ++ ch '?' :: query) = (pre, query) := by
  unfold url.splitQuery
  split
  · rename_i hc
    obtain ⟨hlast, hcount⟩ := hc
    rw [List.count_append, List.count_eq_zero_of_not_mem h, List.count_cons_self] at hcount
    have hq : ch '?' ∉ query := List.count_eq_zero.mp (by omega)
    have hnil : query = [] := by
      cases hqe : query.getLast? with
      | none => exact List.getLast?_eq_none_iff.mp hqe
      | some x =>
        exfalso
        have hx : x ∈ query := List.mem_of_getLast?_eq_some hqe
        rw [List.getLast?_append, List.getLast?_cons, hqe] at hlast
        simp only [Option.getD_some, Option.or, Option.some.injEq] at hlast
        exact hq (hlast ▸ hx)
    subst hnil
    rw [List.dropLast_concat]
  · rw [cutAt_append_sep _ _ _ h]

/-! ## Parsing a credential URI -/

theorem getScheme_otpauth (x : GoString) :
    url.getScheme (ascii "otpauth://totp/" ++ x) = .ok (ascii "otpauth", ascii "//totp/" ++ x) :=
  rfl

theorem parseAuthority_totp : url.parseAuthority (ascii "totp") = .ok (ascii "totp") := by
  decide

theorem parseAuthorityAndPath_totp (path query : GoString) (hpath : ch '%' ∉ path) :
    url.parseAuthorityAndPath (ascii "otpauth") (ascii "//totp/" ++ path) query
      = .ok ⟨ascii "otpauth", [], ascii "totp", ch '/' :: path, query, []⟩ := by
  have hcond : (ascii "otpauth" ≠ [] ∨ ¬ (ascii "///").isPrefixOf (ascii "//totp/" ++ path) = true)
      ∧ (ascii "//").isPrefixOf (ascii "//totp/" ++ path) = true :=
    ⟨Or.inl (by decide), rfl⟩
  have hdrop : (ascii "//totp/" ++ path).drop 2 = ascii "totp" ++ ch '/' :: path := rfl
  have hslash : ch '/' ∉ ascii "totp" := by decide
  have hpct : ch '%' ∉ ch '/' :: path := by
    intro hm
    rcases List.mem_cons.mp hm with h | h
    · exact absurd h (by decide)
    · exact hpath h
  have hrest : (ascii "totp" ++ ch '/' :: path).drop (ascii "totp").length = ch '/' :: path := rfl
  unfold url.parseAuthorityAndPath
  rw [if_pos hcond, hdrop, cutAt_append_sep _ _ _ hslash]
  simp only [parseAuthority_totp, hrest]
  rw [unescape_of_plain .path (by decide) (by decide) _ hpct (by intro h; cases h)]

theorem parse_otpauth_totp (path query : GoString)
    (hpath : ∀ b ∈ path, url.isCTLByte b = false ∧ b ≠ ch '#' ∧ b ≠ ch '?' ∧ b ≠ ch '%')
    (hquery : ∀ b ∈ query, url.isCTLByte b = false ∧ b ≠ ch '#') :
    url.Parse (ascii "otpauth://totp/" ++ path ++ ch '?' :: query)
      = .ok ⟨ascii "otpauth", [], ascii "totp", ch '/' :: path, query, []⟩ := by
  have hlit : ∀ b ∈ ascii "otpauth://totp/", url.isCTLByte b = false ∧ b ≠ ch '#' := by
    decide!
  have hall : ∀ b ∈ ascii "otpauth://totp/" ++ path ++ ch '?' :: query,
      url.isCTLByte b = false ∧ b ≠ ch '#' := by
    intro b hb
    rcases List.mem_append.mp hb with h1 | h2
    · rcases List.mem_append.mp h1 with h | h
      · exact hlit b h
      · exact ⟨(hpath b h).1, (hpath b h).2.1⟩
    · rcases List.mem_cons.mp h2 with h | h
      · subst h
        decide
      · exact hquery b h
  have hhash : ch '#' ∉ ascii "otpauth://totp/" ++ path ++ ch '?' :: query :=
    fun hm => (hall _ hm).2 rfl
  have hctl : (ascii "otpauth://totp/" ++ path ++ ch '?' :: query).any url.isCTLByte = false := by
    rw [List.any_eq_false]
    intro b hb
    rw [(hall b hb).1]
    decide
  have hstar : ascii "otpauth://totp/" ++ path ++ ch '?' :: query ≠ ascii "*" := by
    intro h
    have h2 := congrArg List.length h
    simp only [List.length_append, List.length_cons] at h2
    have h3 : (ascii "otpauth://totp/").length = 15 := rfl
    have h4 : (ascii "*").length = 1 := rfl
    omega
  have hq : ch '?' ∉ ascii "//totp/" ++ path := by
    intro hm
    rcases List.mem_append.mp hm with h | h
    · exact absurd h (by decide)
    · exact (hpath _ h).2.2.1 rfl
  have hpct : ch '%' ∉ path := fun hm => (hpath _ hm).2.2.2 rfl
  have hlower : toLowerASCII (ascii "otpauth") = ascii "otpauth" := by decide
  have hhead : (ascii "//totp/" ++ path).head? = some (ch '/') := rfl
  unfold url.Parse
  rw [cutAt_of_not_mem _ _ hhash]
  simp only [if_true]
  unfold url.parseNoFragment
  rw [hctl, List.append_assoc, getScheme_otpauth]
  rw [List.append_assoc] at hstar
  simp only [Bool.false_eq_true, if_false, hstar, hlower]
  unfold url.parseAfterScheme
  rw [← List.append_assoc, splitQuery_append _ _ hq]
  simp only [hhead, ne_eq, not_true_eq_false, if_false]
  rw [parseAuthorityAndPath_totp path query hpct]

/-! ## Reading the query of a credential URI -/

theorem parseQueryLoop_nil (f : Nat) : url.parseQueryLoop f [] = [] := by
  cases f <;> simp [url.parseQueryLoop]

theorem queryUnescape_of_plain (s : GoString) (h1 : ch '%' ∉ s) (h2 : ch '+' ∉ s) :
    url.QueryUnescape s = .ok s :=
  unescape_of_plain .queryComponent (by decide) (by decide) s h1 (fun _ => h2)

theorem parseQueryLoop_step (f : Nat) (key value : GoString) (tail : GoString)
    (rest : GoString) (found : Bool)
    (hcut : cutAt (ch '&') (key ++ ch '=' :: value ++ tail) = (key ++ ch '=' :: value, rest, found))
    (hk : ∀ b ∈ key, b ≠ ch '&' ∧ b ≠ ch ';' ∧ b ≠ ch '=' ∧ b ≠ ch '%' ∧ b ≠ ch '+')
    (hv : ∀ b ∈ value, b ≠ ch '&' ∧ b ≠ ch ';' ∧ b ≠ ch '%' ∧ b ≠ ch '+') :
    url.parseQueryLoop (f + 1) (key ++ ch '=' :: value ++ tail)
      = (key, value) :: url.parseQueryLoop f rest := by
  have hne : key ++ ch '=' :: value ++ tail ≠ [] := by simp
  have hne2 : key ++ ch '=' :: value ≠ [] := by simp
  have hsemi : (key ++ ch '=' :: value).contains (ch ';') = false := by
    rw [List.contains_eq_any_beq, List.any_eq_false]
    intro b hb
    rcases List.mem_append.mp hb with h | h
    · have := (hk b h).2.1
      simpa using this.symm
    · rcases List.mem_cons.mp h with h | h
      · subst h
        decide
      · have := (hv b h).2.1
        simpa using this.symm
  have heq : ch '=' ∉ key := fun hm => (hk _ hm).2.2.1 rfl
  have hkp : ch '%' ∉ key := fun hm => (hk _ hm).2.2.2.1 rfl
  have hkq : ch '+' ∉ key := fun hm => (hk _ hm).2.2.2.2 rfl
  have hvp : ch '%' ∉ value := fun hm => (hv _ hm).2.2.1 rfl
  have hvq : ch '+' ∉ value := fun hm => (hv _ hm).2.2.2 rfl
  rw [url.parseQueryLoop, if_neg hne, hcut]
  simp only [hsemi, Bool.false_eq_true, if_false, if_neg hne2]
  rw [cutAt_append_sep _ _ _ heq]
  simp only [queryUnescape_of_plain key hkp hkq, queryUnescape_of_plain value hvp hvq]

theorem parseQueryLoop_piece (f : Nat) (key value rest : GoString)
    (hk : ∀ b ∈ key, b ≠ ch '&' ∧ b ≠ ch ';' ∧ b ≠ ch '=' ∧ b ≠ ch '%' ∧ b ≠ ch '+')
    (hv : ∀ b ∈ value, b ≠ ch '&' ∧ b ≠ ch ';' ∧ b ≠ ch '%' ∧ b ≠ ch '+') :
    url.parseQueryLoop (f + 1) (key ++ ch '=' :: value ++ ch '&' :: rest)
      = (key, value) :: url.parseQueryLoop f rest := by
  have hamp : ch '&' ∉ key ++ ch '=' :: value := by
    intro hm
    rcases List.mem_append.mp hm with h | h
    · exact (hk _ h).1 rfl
    · rcases List.mem_cons.mp h with h | h
      · exact absurd h (by decide)
      · exact (hv _ h).1 rfl
  exact parseQueryLoop_step f key value (ch '&' :: rest) rest true
    (cutAt_append_sep _ _ _ hamp) hk hv

theorem parseQueryLoop_last (f : Nat) (key value : GoString)
    (hk : ∀ b ∈ key, b ≠ ch '&' ∧ b ≠ ch ';' ∧ b ≠ ch '=' ∧ b ≠ ch '%' ∧ b ≠ ch '+')
    (hv : ∀ b ∈ value, b ≠ ch '&' ∧ b ≠ ch ';' ∧ b ≠ ch '%' ∧ b ≠ ch '+') :
    url.parseQueryLoop (f + 1) (key ++ ch '=' :: value) = [(key, value)] := by
  have hamp : ch '&' ∉ key ++ ch '=' :: value := by
    intro hm
    rcases List.mem_append.mp hm with h | h
    · exact (hk _ h).1 rfl
    · rcases List.mem_cons.mp h with h | h
      · exact absurd h (by decide)
      · exact (hv _ h).1 rfl
  have h := parseQueryLoop_step f key value [] [] false (by
    rw [List.append_nil, cutAt_of_not_mem _ _ hamp]) hk hv
  rw [List.append_nil, parseQueryLoop_nil] at h
  exact h

theorem issuerByteOK_spec (b : Byte) (h : issuerByteOK b = true) :
    url.isCTLByte b = false ∧ b ≠ ch '#' ∧ b ≠ ch '&' ∧ b ≠ ch ';' ∧ b ≠ ch '+' ∧ b ≠ ch '%' := by
  simpa [issuerByteOK, and_assoc] using h

theorem labelByteOK_spec (b : Byte) (h : labelByteOK b = true) :
    url.isCTLByte b = false ∧ b ≠ ch '#' ∧ b ≠ ch '?' ∧ b ≠ ch '%' := by
  simpa [labelByteOK, and_assoc] using h

theorem credential_query (f : Nat) (hf : 3 ≤ f) (issuer digits secret : GoString)
    (hi : ∀ b ∈ issuer, issuerByteOK b = true) (hd : ∀ b ∈ digits, issuerByteOK b = true)
    (hs : ∀ b ∈ secret, issuerByteOK b = true) :
    url.parseQueryLoop f (ascii "issuer=" ++ issuer ++ ascii "&digits=" ++ digits
        ++ ascii "&secret=" ++ secret)
      = [(ascii "issuer", issuer), (ascii "digits", digits), (ascii "secret", secret)] := by
  obtain ⟨n, rfl⟩ : ∃ n, f = n + 3 := ⟨f - 3, by omega⟩
  have hval : ∀ v : GoString, (∀ b ∈ v, issuerByteOK b = true) →
      ∀ b ∈ v, b ≠ ch '&' ∧ b ≠ ch ';' ∧ b ≠ ch '%' ∧ b ≠ ch '+' := by
    intro v hv b hb
    have h := issuerByteOK_spec b (hv b hb)
    exact ⟨h.2.2.1, h.2.2.2.1, h.2.2.2.2.2, h.2.2.2.2.1⟩
  have hk1 : ∀ b ∈ ascii "issuer",
      b ≠ ch '&' ∧ b ≠ ch ';' ∧ b ≠ ch '=' ∧ b ≠ ch '%' ∧ b ≠ ch '+' := by decide!
  have hk2 : ∀ b ∈ ascii "digits",
      b ≠ ch '&' ∧ b ≠ ch ';' ∧ b ≠ ch '=' ∧ b ≠ ch '%' ∧ b ≠ ch '+' := by decide!
  have hk3 : ∀ b ∈ ascii "secret",
      b ≠ ch '&' ∧ b ≠ ch ';' ∧ b ≠ ch '=' ∧ b ≠ ch '%' ∧ b ≠ ch '+' := by decide!
  have e : ascii "issuer=" ++ issuer ++ ascii "&digits=" ++ digits ++ ascii "&secret=" ++ secret
      = ascii "issuer" ++ ch '=' :: issuer ++ ch '&' ::
        (ascii "digits" ++ ch '=' :: digits ++ ch '&' :: (ascii "secret" ++ ch '=' :: secret)) := by
    have e1 : ascii "issuer=" = ascii "issuer" ++ [ch '='] := rfl
    have e2 : ascii "&digits=" = ch '&' :: (ascii "digits" ++ [ch '=']) := rfl
    have e3 : ascii "&secret=" = ch '&' :: (ascii "secret" ++ [ch '=']) := rfl
    rw [e1, e2, e3]
    simp only [List.append_assoc, List.cons_append, List.singleton_append, List.nil_append]
  rw [e, parseQueryLoop_piece _ _ _ _ hk1 (hval _ hi), parseQueryLoop_piece _ _ _ _ hk2 (hval _ hd),
    parseQueryLoop_last _ _ _ hk3 (hval _ hs)]

theorem trimLeft_slash (note : GoString) (h : note.head? ≠ some (ch '/')) :
    strings.TrimLeft (ch '/' :: note) (ascii "/") = note := by
  unfold strings.TrimLeft
  have h1 : (ascii "/").contains (ch '/') = true := by decide
  rw [List.dropWhile_cons_of_pos h1]
  cases note with
  | nil => rfl
  | cons b bs =>
    have hb : b ≠ ch '/' := fun e => h (by rw [e]; rfl)
    have h2 : ¬ (ascii "/").contains b = true := by
      intro hc
      apply hb
      have e1 : ascii "/" = [ch '/'] := rfl
      rw [e1] at hc
      simpa using hc
    rw [List.dropWhile_cons_of_neg h2]

/-! ## The secret text is made of base32 symbols -/

theorem base32Symbol_mem (v : Nat) : base32Symbol v ∈ base32Alphabet := by
  have h : ∀ i, i < 32 → base32Alphabet.getD i 0 ∈ base32Alphabet := by decide!
  exact h (v % 32) (Nat.mod_lt _ (by norm_num))

theorem base32Quantum_mem (b0 b1 b2 b3 b4 : Byte) :
    ∀ b ∈ base32Quantum b0 b1 b2 b3 b4, b ∈ base32Alphabet := by
  intro b hb
  simp only [base32Quantum, List.mem_cons, List.mem_singleton, List.not_mem_nil, or_false] at hb
  rcases hb with h | h | h | h | h | h | h | h <;> rw [h] <;> exact base32Symbol_mem _

theorem base32Encode_mem (n : Nat) :
    ∀ bs : List Byte, bs.length = 5 * n → ∀ b ∈ base32Encode bs, b ∈ base32Alphabet := by
  induction n with
  | zero =>
    intro bs h b hb
    have : bs = [] := List.length_eq_zero.mp (by omega)
    subst this
    simp [base32Encode] at hb
  | succ n ih =>
    intro bs h b hb
    rcases bs with _ | ⟨b0, _ | ⟨b1, _ | ⟨b2, _ | ⟨b3, _ | ⟨b4, rest⟩⟩⟩⟩⟩
    · simp at h
    · simp at h; omega
    · simp at h; omega
    · simp at h; omega
    · simp at h; omega
    · rw [base32Encode] at hb
      rcases List.mem_append.mp hb with h1 | h1
      · exact base32Quantum_mem _ _ _ _ _ b h1
      · refine ih rest ?_ b h1
        simp only [List.length_cons] at h
        omega

theorem base32Alphabet_issuerOK : ∀ b ∈ base32Alphabet, issuerByteOK b = true := by decide!

theorem secret_of_20_bytes_ok (bs : List Byte) :
    ∀ b ∈ base32Encode ((bs ++ List.replicate 20 0).take 20), issuerByteOK b = true := by
  intro b hb
  refine base32Alphabet_issuerOK b (base32Encode_mem 4 _ ?_ b hb)
  simp

theorem digits_text_ok (d : Int) : ∀ b ∈ formatInt d, issuerByteOK b = true := by
  have hall : ∀ b : Byte, isDigitByte b = true → issuerByteOK b = true := by decide!
  intro b hb
  rcases formatInt_bytes d b hb with h | h
  · exact hall b h
  · subst h
    decide

/-! ## Round trip of a credential through its text -/

theorem roundtrip_of_safe (t : TOTP)
    (hnote : ∀ b ∈ t.note, labelByteOK b = true) (hhead : t.note.head? ≠ some (ch '/'))
    (hissuer : ∀ b ∈ t.issuer, issuerByteOK b = true)
    (hsecret : ∀ b ∈ t.secret, issuerByteOK b = true)
    (hhi : t.digits ≤ 8) (hlo : -(2 ^ 63) ≤ t.digits) :
    TOTPFromURL t.URL = .ok t := by
  have hdig := digits_text_ok t.digits
  have hquery : ∀ b ∈ ascii "issuer=" ++ t.issuer ++ ascii "&digits=" ++ formatInt t.digits
      ++ ascii "&secret=" ++ t.secret, url.isCTLByte b = false ∧ b ≠ ch '#' := by
    have hl1 : ∀ b ∈ ascii "issuer=", url.isCTLByte b = false ∧ b ≠ ch '#' := by decide!
    have hl2 : ∀ b ∈ ascii "&digits=", url.isCTLByte b = false ∧ b ≠ ch '#' := by decide!
    have hl3 : ∀ b ∈ ascii "&secret=", url.isCTLByte b = false ∧ b ≠ ch '#' := by decide!
    have hok : ∀ b, issuerByteOK b = true → url.isCTLByte b = false ∧ b ≠ ch '#' :=
      fun b h => ⟨(issuerByteOK_spec b h).1, (issuerByteOK_spec b h).2.1⟩
    intro b hb
    simp only [List.mem_append] at hb
    rcases hb with ((((h | h) | h) | h) | h) | h
    · exact hl1 b h
    · exact hok b (hissuer b h)
    · exact hl2 b h
    · exact hok b (hdig b h)
    · exact hl3 b h
    · exact hok b (hsecret b h)
  have hpath : ∀ b ∈ t.note,
      url.isCTLByte b = false ∧ b ≠ ch '#' ∧ b ≠ ch '?' ∧ b ≠ ch '%' :=
    fun b hb => labelByteOK_spec b (hnote b hb)
  have hurl : t.URL = ascii "otpauth://totp/" ++ t.note ++ ch '?' ::
      (ascii "issuer=" ++ t.issuer ++ ascii "&digits=" ++ formatInt t.digits
        ++ ascii "&secret=" ++ t.secret) := by
    rw [URL_eq_concat]
    have e : ascii "?issuer=" = ch '?' :: ascii "issuer=" := rfl
    rw [e]
    simp only [List.append_assoc, List.cons_append]
  have hfuel : 3 ≤ (ascii "issuer=" ++ t.issuer ++ ascii "&digits=" ++ formatInt t.digits
      ++ ascii "&secret=" ++ t.secret).length + 1 := by
    have e : (ascii "issuer=").length = 7 := rfl
    simp only [List.length_append, e]
    omega
  have hq := credential_query _ hfuel t.issuer (formatInt t.digits) t.secret hissuer hdig hsecret
  rw [hurl, TOTPFromURL_of_parse _ _ (parse_otpauth_totp _ _ hpath hquery)]
  simp only [url.URL.Query, hq]
  have g1 : url.Get [(ascii "issuer", t.issuer), (ascii "digits", formatInt t.digits),
      (ascii "secret", t.secret)] (ascii "issuer") = t.issuer := rfl
  have g2 : url.Get [(ascii "issuer", t.issuer), (ascii "digits", formatInt t.digits),
      (ascii "secret", t.secret)] (ascii "digits") = formatInt t.digits := rfl
  have g3 : url.Get [(ascii "issuer", t.issuer), (ascii "digits", formatInt t.digits),
      (ascii "secret", t.secret)] (ascii "secret") = t.secret := rfl
  rw [g1, g2, g3, atoi_formatInt t.digits hlo (by omega), trimLeft_slash _ hhead]
  have hcond : ¬ ((ascii "otpauth" != ascii "otpauth" && ascii "totp" != ascii "totp") = true) := by
    decide
  rw [if_neg hcond, if_neg (not_lt.mpr hhi)]

/-- C6 as amended: for every credential produced by `CreateTOTP` (any accepted
digit count of a 64-bit `int`, the secret being the base32 text of 20 bytes)
whose label holds no control byte and none of `#`, `?`, `%` and does not begin
with `/`, and whose issuer holds no control byte and none of `#`, `&`, `;`, `+`,
`%`, `TOTPFromURL` applied to its `URL` succeeds and returns the same
credential: issuer, label, digits and secret text are equal. -/
theorem createTOTP_roundtrip (entropy : Except String (List Byte)) (issuer note : GoString)
    (digits : Int) (t : TOTP)
    (hcreate : CreateTOTP entropy issuer digits note = .ok t)
    (hnote : note.all labelByteOK = true) (hhead : note.head? ≠ some (ch '/'))
    (hissuer : issuer.all issuerByteOK = true) (hint : -(2 ^ 63) ≤ digits) :
    TOTPFromURL t.URL = .ok t := by
  rw [CreateTOTP_eq] at hcreate
  by_cases h8 : digits > 8
  · rw [if_pos h8] at hcreate
    cases hcreate
  · rw [if_neg h8] at hcreate
    cases entropy with
    | error e => cases hcreate
    | ok bs =>
      cases hcreate
      exact roundtrip_of_safe _ (List.all_eq_true.mp hnote) hhead (List.all_eq_true.mp hissuer)
        (secret_of_20_bytes_ok bs) (not_lt.mp h8) hint

/-- C6 as amended, at the credential the test task builds: issuer
`test_totp.com`, six digits, label `user_AB`. -/
theorem createTOTP_roundtrip_witness :
    CreateTOTP (.ok rfcSecret) (ascii "test_totp.com") 6 (ascii "user_AB")
      = .ok ⟨ascii "test_totp.com", 6, rfcSecretText, ascii "user_AB"⟩ ∧
    TOTPFromURL (TOTP.mk (ascii "test_totp.com") 6 rfcSecretText (ascii "user_AB")).URL
      = .ok ⟨ascii "test_totp.com", 6, rfcSecretText, ascii "user_AB"⟩ :=
  ⟨by decide, createTOTP_roundtrip (.ok rfcSecret) (ascii "test_totp.com") (ascii "user_AB") 6
    ⟨ascii "test_totp.com", 6, rfcSecretText, ascii "user_AB"⟩
    (by decide) (by decide) (by decide) (by decide) (by decide)⟩

/-- C6 as stated fails: `CreateTOTP` accepts the labels `a?b` and `a#b` and the
issuer `x&y`, and the credentials do not come back from their own text: the
first returns with label `a` and an empty issuer, the second is refused (its
query is cut off as a fragment), the third returns with issuer `x`. -/
theorem roundtrip_fails_on_reserved_bytes :
    (CreateTOTP (.ok rfcSecret) (ascii "iss") 6 (ascii "a?b")
        = .ok ⟨ascii "iss", 6, rfcSecretText, ascii "a?b"⟩ ∧
      TOTPFromURL (TOTP.mk (ascii "iss") 6 rfcSecretText (ascii "a?b")).URL
        = .ok ⟨[], 6, rfcSecretText, ascii "a"⟩ ∧
      TOTPFromURL (TOTP.mk (ascii "iss") 6 rfcSecretText (ascii "a?b")).URL
        ≠ .ok ⟨ascii "iss", 6, rfcSecretText, ascii "a?b"⟩) ∧
    (CreateTOTP (.ok rfcSecret) (ascii "iss") 6 (ascii "a#b")
        = .ok ⟨ascii "iss", 6, rfcSecretText, ascii "a#b"⟩ ∧
      TOTPFromURL (TOTP.mk (ascii "iss") 6 rfcSecretText (ascii "a#b")).URL
        = .error (.libError "strconv.Atoi: invalid syntax")) ∧
    (CreateTOTP (.ok rfcSecret) (ascii "x&y") 6 (ascii "user")
        = .ok ⟨ascii "x&y", 6, rfcSecretText, ascii "user"⟩ ∧
      TOTPFromURL (TOTP.mk (ascii "x&y") 6 rfcSecretText (ascii "user")).URL
        = .ok ⟨ascii "x", 6, rfcSecretText, ascii "user"⟩) := by
  decide!

/-! ## What `TOTP.OTP` does with the digit count -/

/-- C8 as amended: `TOTP.OTP` makes no digit-count check of its own; the bound
`digits ≤ 8` is enforced where a credential is built or parsed. The secret is
decoded first, whatever the digit count: a secret that is not base32 aborts the
call with the decoder's error. With a decodable secret the HMAC of the time
counter is computed (always 20 bytes) and truncated, and every digit count in
`0..9` returns the truncated value modulo `10^digits`. -/
theorem OTP_makes_no_digit_check (p : Platform) (t : TOTP) :
    (∀ e, base32DecodeString t.secret = .error e → t.OTP p = .error (.libError e)) ∧
    (∀ key, base32DecodeString t.secret = .ok key →
      (hmacSHA1 key (TOTP.timeSeqBytes p)).length = 20 ∧
      (0 ≤ t.digits → t.digits ≤ 9 →
        t.OTP p = .ok (((specTruncate (hmacSHA1 key (TOTP.timeSeqBytes p))
          % 10 ^ t.digits.toNat : Nat)) : Int))) := by
  refine ⟨fun e he => ?_, fun key hkey => ⟨hmacSHA1_length _ _, fun h0 h9 => ?_⟩⟩
  · unfold TOTP.OTP
    rw [secretBytes_of_error t e he]
    rfl
  · rw [OTP_of_key p t key hkey]
    exact otpOfMAC_of_range p _ _ (hmacSHA1_length _ _) h0 h9

/-- C8 as stated fails: with the RFC secret at time 59, `TOTP.OTP` returns a
number for the digit counts 0 and 9; for -1 it aborts with a division by zero
and for a bad secret with the decoder's error, not with a parameter error. -/
theorem OTP_returns_for_digits_0_and_9 :
    TOTP.OTP (platformAt 59) ⟨ascii "iss", 0, rfcSecretText, ascii "user"⟩ = .ok 0 ∧
    TOTP.OTP (platformAt 59) ⟨ascii "iss", 9, rfcSecretText, ascii "user"⟩ = .ok 94287082 ∧
    TOTP.OTP (platformAt 59) ⟨ascii "iss", -1, rfcSecretText, ascii "user"⟩
      = .error (.runtime "integer divide by zero") ∧
    TOTP.OTP (platformAt 59) ⟨ascii "iss", 9, ascii "not base32", ascii "user"⟩
      = .error (.libError "illegal base32 data") := by
  decide!

/-! ## The printed one-time password -/

/-- C7, the behaviour of the code at the failing inputs: at time 1111111109 the
RFC 6238 credential with eight digits has the one-time password 07081804;
`TOTP.OTP` returns the number 7081804 and `getOTPTask` prints `7081804`, seven
characters, where the padded rendering is `07081804`. On the all-zero MAC with
six digits the value is 0, printed as `0`, where the padded rendering is
`000000`. -/
theorem printed_OTP_drops_leading_zeros :
    TOTP.OTP (platformAt 1111111109) ⟨ascii "iss", 8, rfcSecretText, ascii "user"⟩
      = .ok 7081804 ∧
    getOTPTask (platformAt 1111111109) noQR []
        (ascii "otpauth://totp/user?issuer=iss&digits=8&secret=GEZDGNBVGY3TQOJQGEZDGNBVGY3TQOJQ")
      = .ok (ascii "7081804\n") ∧
    specRenderOTP 7081804 8 = ascii "07081804" ∧
    otpOfMAC (platformAt 0) (List.replicate 20 0) 6 = .ok 0 ∧
    printlnInt 0 = ascii "0\n" ∧
    specRenderOTP 0 6 = ascii "000000" := by
  decide!

/-! ## Further properties of the program -/

theorem natDigitsAux_length_le (f : Nat) :
    ∀ n acc d, n < f → 1 ≤ d → n < 10 ^ d →
      (natDigitsAux f n acc).length ≤ acc.length + d := by
  induction f with
  | zero => intro n acc d h; omega
  | succ f ih =>
    intro n acc d hn hd hlt
    by_cases h10 : n < 10
    · simp only [natDigitsAux, if_pos h10, List.length_cons]
      omega
    · simp only [natDigitsAux, if_neg h10]
      obtain ⟨e, rfl⟩ : ∃ e, d = e + 1 := ⟨d - 1, by omega⟩
      have he : 1 ≤ e := by
        rcases Nat.eq_zero_or_pos e with h0 | h0
        · subst h0
          simp at hlt
          omega
        · exact h0
      have hdiv : n / 10 < 10 ^ e := by
        rw [Nat.div_lt_iff_lt_mul (by norm_num)]
        rw [pow_succ] at hlt
        exact hlt
      have := ih (n / 10) (digitByte (n % 10) :: acc) e (by omega) he hdiv
      simp only [List.length_cons] at this
      omega

theorem natDigitsAux_length_ge (f : Nat) :
    ∀ n acc d, n < f → 10 ^ d ≤ n →
      acc.length + d + 1 ≤ (natDigitsAux f n acc).length := by
  induction f with
  | zero => intro n acc d h; omega
  | succ f ih =>
    intro n acc d hn hge
    by_cases h10 : n < 10
    · simp only [natDigitsAux, if_pos h10, List.length_cons]
      rcases Nat.eq_zero_or_pos d with h0 | h0
      · omega
      · have : 10 ^ 1 ≤ 10 ^ d := Nat.pow_le_pow_right (by norm_num) h0
        omega
    · simp only [natDigitsAux, if_neg h10]
      rcases Nat.eq_zero_or_pos d with h0 | h0
      · subst h0
        have := ih (n / 10) (digitByte (n % 10) :: acc) 0 (by omega) (by simp; omega)
        simp only [List.length_cons] at this
        omega
      · obtain ⟨e, rfl⟩ : ∃ e, d = e + 1 := ⟨d - 1, by omega⟩
        have hdiv : 10 ^ e ≤ n / 10 := by
          rw [Nat.le_div_iff_mul_le (by norm_num)]
          rw [pow_succ] at hge
          exact hge
        have := ih (n / 10) (digitByte (n % 10) :: acc) e (by omega) hdiv
        simp only [List.length_cons] at this
        omega

theorem formatNat_length_le (n d : Nat) (hd : 1 ≤ d) (h : n < 10 ^ d) :
    (formatNat n).length ≤ d := by
  have := natDigitsAux_length_le (n + 1) n [] d (by omega) hd h
  simpa [formatNat] using this

theorem formatNat_length_ge (n d : Nat) (h : 10 ^ d ≤ n) : d + 1 ≤ (formatNat n).length := by
  have := natDigitsAux_length_ge (n + 1) n [] d (by omega) h
  simpa [formatNat] using this

theorem formatInt_natCast (n : Nat) : formatInt (n : Int) = formatNat n := by
  unfold formatInt
  rw [if_neg (by omega)]
  rfl

/-- X1: for every 20-byte MAC and every digit count in `1..8`, the text printed
for the one-time password is the plain decimal form of the value followed by a
line break: all its characters are decimal digits, there are at most `digits` of
them, and there are exactly `digits` of them if and only if `digits` is 1 or the
value is at least `10^(digits-1)`; a smaller value is printed shorter, without
leading zeros. -/
theorem printed_OTP_shape (p : Platform) (mac : List Byte) (digits : Int)
    (hlen : mac.length = 20) (h1 : 1 ≤ digits) (h8 : digits ≤ 8) :
    otpOfMAC p mac digits = .ok (((specTruncate mac % 10 ^ digits.toNat : Nat)) : Int) ∧
    printlnInt (((specTruncate mac % 10 ^ digits.toNat : Nat)) : Int)
      = formatNat (specTruncate mac % 10 ^ digits.toNat) ++ [ch '\n'] ∧
    (∀ b ∈ formatNat (specTruncate mac % 10 ^ digits.toNat), isDigitByte b = true) ∧
    (formatNat (specTruncate mac % 10 ^ digits.toNat)).length ≤ digits.toNat ∧
    ((formatNat (specTruncate mac % 10 ^ digits.toNat)).length = digits.toNat ↔
      (digits = 1 ∨ 10 ^ (digits.toNat - 1) ≤ specTruncate mac % 10 ^ digits.toNat)) := by
  have hd : 1 ≤ digits.toNat := by omega
  have hpos : 0 < 10 ^ digits.toNat := by positivity
  have hlt := Nat.mod_lt (specTruncate mac) hpos
  have hle := formatNat_length_le _ _ hd hlt
  refine ⟨otpOfMAC_of_range p mac digits hlen (by omega) (by omega), ?_,
    formatNat_all_digits _, hle, ?_⟩
  · unfold printlnInt
    rw [formatInt_natCast]
  · constructor
    · intro heq
      by_contra hsmall
      rw [not_or] at hsmall
      have hs : specTruncate mac % 10 ^ digits.toNat < 10 ^ (digits.toNat - 1) := by omega
      have := formatNat_length_le _ (digits.toNat - 1) (by omega) hs
      omega
    · rintro (hone | hbig)
      · obtain ⟨c, cs, hcs, _⟩ := formatNat_head (specTruncate mac % 10 ^ digits.toNat)
        rw [hcs] at hle ⊢
        simp only [List.length_cons] at hle ⊢
        omega
      · have := formatNat_length_ge _ _ hbig
        omega

/-- X1 at the all-zero MAC with six digits: the value is 0 and one character is
printed. -/
theorem printed_OTP_shape_witness :
    (List.replicate 20 (0 : Byte)).length = 20 ∧
    otpOfMAC (platformAt 0) (List.replicate 20 0) 6 = .ok 0 ∧
    (formatNat (specTruncate (List.replicate 20 0) % 10 ^ (6 : Int).toNat)).length
      ≤ (6 : Int).toNat :=
  ⟨by decide, by decide,
    (printed_OTP_shape (platformAt 0) (List.replicate 20 0) 6 (by decide) (by decide)
      (by decide)).2.2.2.1⟩

theorem dropWhile_head (q : Byte → Bool) (s : GoString) :
    ∀ b, (s.dropWhile q).head? = some b → q b = false := by
  induction s with
  | nil => intro b h; simp at h
  | cons c cs ih =>
    intro b h
    by_cases hc : q c = true
    · rw [List.dropWhile_cons_of_pos hc] at h
      exact ih b h
    · rw [List.dropWhile_cons_of_neg hc] at h
      simp only [List.head?_cons, Option.some.injEq] at h
      subst h
      simpa using hc

/-- X2: the label of a credential returned by `TOTPFromURL` never begins with
`/`: the leading separators of the path are stripped. -/
theorem TOTPFromURL_note_has_no_leading_slash (urlstring : GoString) (t : TOTP)
    (h : TOTPFromURL urlstring = .ok t) : t.note.head? ≠ some (ch '/') := by
  cases hp : url.Parse urlstring with
  | error e => rw [TOTPFromURL_of_parse_error urlstring e hp] at h; cases h
  | ok u =>
    rw [TOTPFromURL_of_parse urlstring u hp] at h
    split at h
    · cases h
    · split at h
      · cases h
      · split at h
        · cases h
        · cases h
          intro hhead
          have := dropWhile_head (fun b => (ascii "/").contains b) u.Path (ch '/') hhead
          revert this
          decide

/-- X2 at a URI whose path is `//x`: the label comes back as `x`. -/
theorem TOTPFromURL_note_has_no_leading_slash_witness :
    TOTPFromURL (ascii "otpauth://totp//x?issuer=iss&digits=6&secret=SECRET")
      = .ok ⟨ascii "iss", 6, ascii "SECRET", ascii "x"⟩ ∧
    (ascii "x").head? ≠ some (ch '/') :=
  ⟨by decide, TOTPFromURL_note_has_no_leading_slash
    (ascii "otpauth://totp//x?issuer=iss&digits=6&secret=SECRET")
    ⟨ascii "iss", 6, ascii "SECRET", ascii "x"⟩ (by decide)⟩

theorem base32Encode_length (n : Nat) :
    ∀ bs : List Byte, bs.length = 5 * n → (base32Encode bs).length = 8 * n := by
  induction n with
  | zero =>
    intro bs h
    have : bs = [] := List.length_eq_zero.mp (by omega)
    subst this
    rfl
  | succ n ih =>
    intro bs h
    rcases bs with _ | ⟨b0, _ | ⟨b1, _ | ⟨b2, _ | ⟨b3, _ | ⟨b4, rest⟩⟩⟩⟩⟩
    · simp at h
    · simp at h; omega
    · simp at h; omega
    · simp at h; omega
    · simp at h; omega
    · rw [base32Encode, List.length_append, ih rest (by simp only [List.length_cons] at h; omega)]
      simp only [base32Quantum, List.length_cons, List.length_nil]
      omega

/-- X3: the secret of every credential `CreateTOTP` returns is 32 symbols of the
base32 alphabet, with no padding character. -/
theorem CreateTOTP_secret_shape (entropy : Except String (List Byte)) (issuer note : GoString)
    (digits : Int) (t : TOTP) (h : CreateTOTP entropy issuer digits note = .ok t) :
    t.secret.length = 32 ∧ (∀ b ∈ t.secret, b ∈ base32Alphabet) ∧ ch '=' ∉ t.secret := by
  rw [CreateTOTP_eq] at h
  by_cases h8 : digits > 8
  · rw [if_pos h8] at h
    cases h
  · rw [if_neg h8] at h
    cases entropy with
    | error e => cases h
    | ok bs =>
      cases h
      have hl : ((bs ++ List.replicate 20 0).take 20).length = 5 * 4 := by simp
      have hmem := base32Encode_mem 4 _ hl
      refine ⟨base32Encode_length 4 _ hl, hmem, fun hm => ?_⟩
      have := hmem _ hm
      revert this
      decide

/-- X3 at the RFC secret as the random bytes. -/
theorem CreateTOTP_secret_shape_witness :
    CreateTOTP (.ok rfcSecret) (ascii "iss") 6 (ascii "user")
      = .ok ⟨ascii "iss", 6, rfcSecretText, ascii "user"⟩ ∧
    rfcSecretText.length = 32 :=
  ⟨by decide, (CreateTOTP_secret_shape (.ok rfcSecret) (ascii "iss") (ascii "user") 6
    ⟨ascii "iss", 6, rfcSecretText, ascii "user"⟩ (by decide)).1⟩
